import Mathlib

/-!
Verification of the metadata registry in src/Reflect.ts (a Deno port of
reflect-metadata v0.1.12).

The embedding models the ECMAScript value domain shallowly: a JS value is
either one of the primitives or an object reference.  Object references carry
an identity (a natural number) and their typeof-tag ("function" vs plain
"object"), since the code only ever inspects typeof and reference identity.
Host-object-model primitives that the code consumes (Object.getPrototypeOf,
the .prototype/.constructor properties, and the to-primitive method-call
protocol for objects) are supplied by a HostModel structure, mirroring
section 6 of the design, which lists them as primitives consumed from the
host object model.

JS Map objects (insertion-ordered, set-in-place keeps position, delete
removes) are modelled as association lists; the WeakMap registry is an
association list keyed by target value.  In-place mutation of a map that is
shared with the registry is modelled by writing the updated map back into
the registry at the same position.
-/

namespace Reflect

/-- The ECMAScript value domain as used by src/Reflect.ts.  Objects are
identified by a numeric id plus their typeof-tag: callable objects have
typeof "function", others typeof "object". -/
inductive JSVal where
  | undef : JSVal
  | null : JSVal
  | bool : Bool → JSVal
  | str : String → JSVal
  | sym : Nat → JSVal
  | num : Int → JSVal
  | obj : Nat → Bool → JSVal
deriving DecidableEq

/-- The only error the code raises: TypeError. -/
inductive JSErr where
  | typeError : JSErr
deriving DecidableEq

open JSVal

/-- 6.1 ECMAScript language type tags (const enum Tag in the source). -/
inductive Tag where
  | Undefined | Null | Boolean | String | Symbol | Number | Object
deriving DecidableEq

/-- function Type(x): the typeof-dispatch of the source (callable objects fall
through the default branch to Tag.Object, matching typeof "function"). -/
def TypeOf : JSVal → Tag
  | .undef => .Undefined
  | .null => .Null
  | .bool _ => .Boolean
  | .str _ => .String
  | .sym _ => .Symbol
  | .num _ => .Number
  | .obj _ _ => .Object

/-- function IsUndefined(x) !== just x === undefined. -/
def IsUndefined (x : JSVal) : Bool := x = JSVal.undef

/-- function IsNull(x): x === null. -/
def IsNull (x : JSVal) : Bool := x = JSVal.null

/-- function IsSymbol(x): typeof x === "symbol". -/
def IsSymbol : JSVal → Bool
  | .sym _ => true
  | _ => false

/-- function IsObject(x): typeof x === "object" && x !== null, or
typeof x === "function". -/
def IsObject : JSVal → Bool
  | .obj _ _ => true
  | _ => false

/-- function IsCallable(x): typeof x === "function". -/
def IsCallable : JSVal → Bool
  | .obj _ c => c
  | _ => false

/-- function IsConstructor(x): same approximation as IsCallable in the
source (typeof x === "function"). -/
def IsConstructor : JSVal → Bool
  | .obj _ c => c
  | _ => false

/-- function IsPropertyKey(x): Type is String or Symbol. -/
def IsPropertyKey (x : JSVal) : Bool :=
  match TypeOf x with
  | .String => true
  | .Symbol => true
  | _ => false

/-- function ToBoolean(x): JS truthiness (!!x). -/
def ToBoolean : JSVal → Bool
  | .undef => false
  | .null => false
  | .bool b => b
  | .str s => s ≠ ""
  | .sym _ => true
  | .num n => n ≠ 0
  | .obj _ _ => true

/-- function ToString(x): "" + x for the primitive values.  The only call
site (ToPropertyKey) feeds it a non-symbol primitive, so the symbol and
object branches are unreachable from this development. -/
def ToString : JSVal → String
  | .undef => "undefined"
  | .null => "null"
  | .bool b => if b then "true" else "false"
  | .str s => s
  | .num n => toString n
  | .sym _ => ""
  | .obj _ _ => ""

/-- The host-object-model primitives consumed by the code (section 6 of the
design document lists exactly these as external collaborators). -/
structure HostModel where
  /-- Object.getPrototypeOf. -/
  getProtoOf : JSVal → JSVal
  /-- Reading the .prototype property of a value. -/
  prototypeProp : JSVal → JSVal
  /-- Reading the .constructor property of a value. -/
  constructorProp : JSVal → JSVal
  /-- The constant Object.getPrototypeOf(Function) captured at module load. -/
  functionPrototype : JSVal
  /-- The constant Object.prototype. -/
  objectPrototype : JSVal
  /-- The method-call protocol of ToPrimitive for object inputs (the
  exoticToPrim / OrdinaryToPrimitive part, lines 928-934 and 939-967 of the
  source): invokes host toString/valueOf methods, so it is a host primitive
  here.  The String argument is the computed hint. -/
  objToPrim : JSVal → String → Except JSErr JSVal

/-- function ToPrimitive(input, PreferredType): primitive inputs are returned
unchanged (the switch over Type(input)); object inputs defer to the host
method-call protocol with the computed hint. -/
def ToPrimitive (H : HostModel) (input : JSVal) (PreferredType : Tag) :
    Except JSErr JSVal :=
  match TypeOf input with
  | .Undefined => .ok input
  | .Null => .ok input
  | .Boolean => .ok input
  | .String => .ok input
  | .Symbol => .ok input
  | .Number => .ok input
  | .Object =>
    let hint : String :=
      if PreferredType = Tag.String then "string"
      else if PreferredType = Tag.Number then "number"
      else "default"
    H.objToPrim input hint

/-- function ToPropertyKey(argument): ToPrimitive with string preference,
returning symbols unchanged and stringifying everything else. -/
def ToPropertyKey (H : HostModel) (argument : JSVal) : Except JSErr JSVal :=
  match ToPrimitive H argument Tag.String with
  | .error e => .error e
  | .ok key => if IsSymbol key then .ok key else .ok (JSVal.str (ToString key))

/-! ## JS Map primitives

A JS Map is insertion-ordered: set on a present key overwrites in place
(keeping the position), set on an absent key appends, delete removes the
entry, and keys() iterates in insertion order. -/

/-- Map.prototype.get (as an Option; the call sites turn absence into
undefined where the JS get would). -/
def mlookup {β : Type} : List (JSVal × β) → JSVal → Option β
  | [], _ => none
  | (k', v) :: rest, k => if k' = k then some v else mlookup rest k

/-- Map.prototype.set: overwrite in place if present, append otherwise. -/
def mset {β : Type} : List (JSVal × β) → JSVal → β → List (JSVal × β)
  | [], k, v => [(k, v)]
  | (k', v') :: rest, k, v =>
    if k' = k then (k, v) :: rest else (k', v') :: mset rest k v

/-- Map.prototype.delete (the removal part; the Boolean result is recovered
at the call site from a membership test). -/
def mdelete {β : Type} : List (JSVal × β) → JSVal → List (JSVal × β)
  | [], _ => []
  | (k', v') :: rest, k => if k' = k then rest else (k', v') :: mdelete rest k

/-- Map.prototype.has. -/
def mcontains {β : Type} (m : List (JSVal × β)) (k : JSVal) : Bool :=
  (mlookup m k).isSome

/-! ## The metadata registry

const Metadata = new WeakMap<any, Map<string | symbol | undefined, Map<any,
any>>>().  Member keys are JSVal values that are strings, symbols or
undefined (undefined being the no-member sentinel), exactly as in the
source's Map key type. -/

/-- A MetadataMap: metadata key → metadata value, insertion-ordered. -/
abbrev MetadataMap := List (JSVal × JSVal)

/-- A target's entry: member key (string/symbol/undefined) → MetadataMap. -/
abbrev TargetMetadata := List (JSVal × MetadataMap)

/-- The process-wide registry: target → TargetMetadata. -/
abbrev Registry := List (JSVal × TargetMetadata)

/-- GetOrCreateMetadataMap(O, P, Create): looks up the target's entry and the
member's metadata map, creating them when Create is set.  Returns the found
map together with the (possibly extended) registry; the in-place creation of
the nested maps is modelled by writing the new containers back into the
registry. -/
def GetOrCreateMetadataMap (O P : JSVal) (Create : Bool) (reg : Registry) :
    Option MetadataMap × Registry :=
  match mlookup reg O with
  | none =>
    if Create = false then (none, reg)
    else
      let targetMetadata : TargetMetadata := []
      let metadataMap : MetadataMap := []
      (some metadataMap, mset reg O (mset targetMetadata P metadataMap))
  | some targetMetadata =>
    match mlookup targetMetadata P with
    | some metadataMap => (some metadataMap, reg)
    | none =>
      if Create = false then (none, reg)
      else
        let metadataMap : MetadataMap := []
        (some metadataMap, mset reg O (mset targetMetadata P metadataMap))

/-- Writing an updated metadata map back into the registry at (O, P): models
the in-place mutation of the map object shared between the caller and the
registry. -/
def setMetadataMap (reg : Registry) (O P : JSVal) (mm : MetadataMap) :
    Registry :=
  mset reg O (mset ((mlookup reg O).getD []) P mm)

/-- OrdinaryHasOwnMetadata(MetadataKey, O, P). -/
def OrdinaryHasOwnMetadata (MetadataKey O P : JSVal) (reg : Registry) :
    Bool × Registry :=
  let r := GetOrCreateMetadataMap O P false reg
  match r.1 with
  | none => (false, r.2)
  | some metadataMap => (mcontains metadataMap MetadataKey, r.2)

/-- OrdinaryGetOwnMetadata(MetadataKey, O, P): Map.get returns undefined for
an absent key. -/
def OrdinaryGetOwnMetadata (MetadataKey O P : JSVal) (reg : Registry) :
    JSVal × Registry :=
  let r := GetOrCreateMetadataMap O P false reg
  match r.1 with
  | none => (JSVal.undef, r.2)
  | some metadataMap =>
    ((mlookup metadataMap MetadataKey).getD JSVal.undef, r.2)

/-- OrdinaryDefineOwnMetadata(MetadataKey, MetadataValue, O, P): get-or-create
the map, then metadataMap.set (written back into the registry). -/
def OrdinaryDefineOwnMetadata (MetadataKey MetadataValue O P : JSVal)
    (reg : Registry) : Registry :=
  let r := GetOrCreateMetadataMap O P true reg
  match r.1 with
  | some metadataMap =>
    setMetadataMap r.2 O P (mset metadataMap MetadataKey MetadataValue)
  | none => r.2

/-- OrdinaryOwnMetadataKeys(O, P): the iterator loop copies the map's keys in
insertion order into a fresh array; with the association-list model that is
the list of first components. -/
def OrdinaryOwnMetadataKeys (O P : JSVal) (reg : Registry) :
    List JSVal × Registry :=
  let r := GetOrCreateMetadataMap O P false reg
  match r.1 with
  | none => ([], r.2)
  | some metadataMap => (metadataMap.map Prod.fst, r.2)

/-- OrdinaryGetPrototypeOf(O): the ordinary prototype, with the heuristic
superclass recovery for functions whose prototype link is the root function
ancestor.  Line 1093's prototype && Object.getPrototypeOf(prototype) is the
JS truthiness guard, and line 1094's prototypeProto == null is loose
equality (null or undefined). -/
def OrdinaryGetPrototypeOf (H : HostModel) (O : JSVal) : JSVal :=
  let proto := H.getProtoOf O
  if ¬ IsCallable O ∨ O = H.functionPrototype then proto
  else if proto ≠ H.functionPrototype then proto
  else
    let prototype := H.prototypeProp O
    let prototypeProto :=
      if ToBoolean prototype then H.getProtoOf prototype else prototype
    if (prototypeProto = JSVal.null ∨ prototypeProto = JSVal.undef) ∨
        prototypeProto = H.objectPrototype then proto
    else
      let constructor := H.constructorProp prototypeProto
      if ¬ IsCallable constructor then proto
      else if constructor = O then proto
      else constructor

/-! ## Chain-walking operations

OrdinaryHasMetadata, OrdinaryGetMetadata and OrdinaryMetadataKeys recurse
along the parent relationship unboundedly; the design document records
acyclicity of that relationship as an assumption, not a guard.  The
embedding makes the recursion structural with an explicit fuel parameter;
a none result means the fuel did not cover the chain (the non-terminating
case in JS). -/

/-- OrdinaryHasMetadata(MetadataKey, O, P), fuel-indexed. -/
def OrdinaryHasMetadata (H : HostModel) :
    Nat → JSVal → JSVal → JSVal → Registry → Option Bool × Registry
  | 0, _, _, _, reg => (none, reg)
  | fuel + 1, MetadataKey, O, P, reg =>
    let ho := OrdinaryHasOwnMetadata MetadataKey O P reg
    if ho.1 then (some true, ho.2)
    else
      let parent := OrdinaryGetPrototypeOf H O
      if ¬ IsNull parent then OrdinaryHasMetadata H fuel MetadataKey parent P ho.2
      else (some false, ho.2)

/-- OrdinaryGetMetadata(MetadataKey, O, P), fuel-indexed; some undef is the
exhausted-chain result (the JS return undefined). -/
def OrdinaryGetMetadata (H : HostModel) :
    Nat → JSVal → JSVal → JSVal → Registry → Option JSVal × Registry
  | 0, _, _, _, reg => (none, reg)
  | fuel + 1, MetadataKey, O, P, reg =>
    let ho := OrdinaryHasOwnMetadata MetadataKey O P reg
    if ho.1 then
      let g := OrdinaryGetOwnMetadata MetadataKey O P ho.2
      (some g.1, g.2)
    else
      let parent := OrdinaryGetPrototypeOf H O
      if ¬ IsNull parent then OrdinaryGetMetadata H fuel MetadataKey parent P ho.2
      else (some JSVal.undef, ho.2)

/-- One step of the Set-based de-duplication loop of OrdinaryMetadataKeys
(lines 791-804): the state is (the Set's members, the keys array). -/
def addUnique (st : List JSVal × List JSVal) (key : JSVal) :
    List JSVal × List JSVal :=
  let hasKey := key ∈ st.1
  if ¬ hasKey then (key :: st.1, st.2 ++ [key]) else st

/-- The two for-of loops of OrdinaryMetadataKeys, folded over one list. -/
def addUniqueAll (st : List JSVal × List JSVal) (l : List JSVal) :
    List JSVal × List JSVal :=
  l.foldl addUnique st

/-- OrdinaryMetadataKeys(O, P), fuel-indexed: own keys, then the parent's
keys de-duplicated through a Set, with the two early returns for an empty
side. -/
def OrdinaryMetadataKeys (H : HostModel) :
    Nat → JSVal → JSVal → Registry → Option (List JSVal) × Registry
  | 0, _, _, reg => (none, reg)
  | fuel + 1, O, P, reg =>
    let ok := OrdinaryOwnMetadataKeys O P reg
    let ownKeys := ok.1
    let parent := OrdinaryGetPrototypeOf H O
    if parent = JSVal.null then (some ownKeys, ok.2)
    else
      let pk := OrdinaryMetadataKeys H fuel parent P ok.2
      match pk.1 with
      | none => (none, pk.2)
      | some parentKeys =>
        if parentKeys.length ≤ 0 then (some ownKeys, pk.2)
        else if ownKeys.length ≤ 0 then (some parentKeys, pk.2)
        else
          (some (addUniqueAll (addUniqueAll ([], []) ownKeys) parentKeys).2, pk.2)

/-! ## Public store operations (the exported, validating wrappers) -/

/-- The shared validation prelude: throw on a non-object target, then
normalize a supplied member key via ToPropertyKey. -/
def checkAndKey (H : HostModel) (target propertyKey : JSVal) :
    Except JSErr JSVal :=
  if ¬ IsObject target then .error .typeError
  else if ¬ IsUndefined propertyKey then ToPropertyKey H propertyKey
  else .ok propertyKey

/-- Reflect.defineMetadata. -/
def defineMetadata (H : HostModel)
    (metadataKey metadataValue target propertyKey : JSVal) (reg : Registry) :
    Except JSErr Registry :=
  if ¬ IsObject target then .error .typeError
  else
    match (if ¬ IsUndefined propertyKey then ToPropertyKey H propertyKey
           else .ok propertyKey) with
    | .error e => .error e
    | .ok propertyKey =>
      .ok (OrdinaryDefineOwnMetadata metadataKey metadataValue target
        propertyKey reg)

/-- Reflect.hasMetadata. -/
def hasMetadata (H : HostModel) (fuel : Nat)
    (metadataKey target propertyKey : JSVal) (reg : Registry) :
    Except JSErr (Option Bool × Registry) :=
  match checkAndKey H target propertyKey with
  | .error e => .error e
  | .ok propertyKey =>
    .ok (OrdinaryHasMetadata H fuel metadataKey target propertyKey reg)

/-- Reflect.hasOwnMetadata. -/
def hasOwnMetadata (H : HostModel)
    (metadataKey target propertyKey : JSVal) (reg : Registry) :
    Except JSErr (Bool × Registry) :=
  match checkAndKey H target propertyKey with
  | .error e => .error e
  | .ok propertyKey =>
    .ok (OrdinaryHasOwnMetadata metadataKey target propertyKey reg)

/-- Reflect.getMetadata. -/
def getMetadata (H : HostModel) (fuel : Nat)
    (metadataKey target propertyKey : JSVal) (reg : Registry) :
    Except JSErr (Option JSVal × Registry) :=
  match checkAndKey H target propertyKey with
  | .error e => .error e
  | .ok propertyKey =>
    .ok (OrdinaryGetMetadata H fuel metadataKey target propertyKey reg)

/-- Reflect.getOwnMetadata. -/
def getOwnMetadata (H : HostModel)
    (metadataKey target propertyKey : JSVal) (reg : Registry) :
    Except JSErr (JSVal × Registry) :=
  match checkAndKey H target propertyKey with
  | .error e => .error e
  | .ok propertyKey =>
    .ok (OrdinaryGetOwnMetadata metadataKey target propertyKey reg)

/-- Reflect.getMetadataKeys. -/
def getMetadataKeys (H : HostModel) (fuel : Nat)
    (target propertyKey : JSVal) (reg : Registry) :
    Except JSErr (Option (List JSVal) × Registry) :=
  match checkAndKey H target propertyKey with
  | .error e => .error e
  | .ok propertyKey =>
    .ok (OrdinaryMetadataKeys H fuel target propertyKey reg)

/-- Reflect.getOwnMetadataKeys. -/
def getOwnMetadataKeys (H : HostModel)
    (target propertyKey : JSVal) (reg : Registry) :
    Except JSErr (List JSVal × Registry) :=
  match checkAndKey H target propertyKey with
  | .error e => .error e
  | .ok propertyKey =>
    .ok (OrdinaryOwnMetadataKeys target propertyKey reg)

/-- The body of Reflect.deleteMetadata after its validation prelude (lines
634-649 of the source, with the member key already normalized): the Boolean
result together with the updated registry.  Includes the unreachable
re-lookup guard on the target's entry (the `if (!targetMetadata) return
false` of line 643). -/
def deleteMetadataCore (metadataKey target propertyKey : JSVal)
    (reg : Registry) : Bool × Registry :=
  let r := GetOrCreateMetadataMap target propertyKey false reg
  match r.1 with
  | none => (false, r.2)
  | some metadataMap =>
    let reg := r.2
    if ¬ mcontains metadataMap metadataKey then (false, reg)
    else
      let metadataMap := mdelete metadataMap metadataKey
      if metadataMap.length > 0 then
        (true, setMetadataMap reg target propertyKey metadataMap)
      else
        match mlookup reg target with
        | none => (false, reg)
        | some targetMetadata =>
          let targetMetadata := mdelete targetMetadata propertyKey
          if targetMetadata.length > 0 then
            (true, mset reg target targetMetadata)
          else (true, mdelete reg target)

/-- Reflect.deleteMetadata: validation prelude (non-object target, member
key normalization), then the deletion body. -/
def deleteMetadata (H : HostModel)
    (metadataKey target propertyKey : JSVal) (reg : Registry) :
    Except JSErr (Bool × Registry) :=
  if ¬ IsObject target then .error .typeError
  else
    match (if ¬ IsUndefined propertyKey then ToPropertyKey H propertyKey
           else .ok propertyKey) with
    | .error e => .error e
    | .ok propertyKey =>
      .ok (deleteMetadataCore metadataKey target propertyKey reg)

/-! ## Decoration engine

A decorator is arbitrary host code; it is modelled by its two call
behaviours (as a class decorator and as a member decorator) plus a numeric
id used only to record which decorators ran and in which order. -/

/-- A decorator function: id plus the results of calling it with one
argument (class form) or three (member form, descriptor possibly
undefined). -/
structure Dec where
  id : Nat
  onCtor : JSVal → JSVal
  onMember : JSVal → JSVal → JSVal → JSVal

/-- The decorators argument of Reflect.decorate as a runtime value: either
an actual array of functions or some non-array value (IsArray dispatches on
this). -/
inductive DecArg where
  | array : List Dec → DecArg
  | nonArray : JSVal → DecArg

/-- function IsArray(argument) on the decorators argument. -/
def IsArrayArg : DecArg → Bool
  | .array _ => true
  | .nonArray _ => false

/-- The element list of an array argument. -/
def decsOf : DecArg → List Dec
  | .array ds => ds
  | .nonArray _ => []

/-- The body of DecorateConstructor's for-loop, processed from the highest
index down; the reversed list is consumed front-to-back.  The second
component records the ids of the decorators that were invoked, in
invocation order. -/
def DecorateConstructorAux : List Dec → JSVal → (Except JSErr JSVal) × List Nat
  | [], target => (.ok target, [])
  | decorator :: rest, target =>
    let decorated := decorator.onCtor target
    if ¬ IsUndefined decorated ∧ ¬ IsNull decorated then
      if ¬ IsConstructor decorated then (.error .typeError, [decorator.id])
      else
        match DecorateConstructorAux rest decorated with
        | (r, tr) => (r, decorator.id :: tr)
    else
      match DecorateConstructorAux rest target with
      | (r, tr) => (r, decorator.id :: tr)

/-- DecorateConstructor(decorators, target): for (let i = length - 1;
i >= 0; --i), threading the current constructor through. -/
def DecorateConstructor (decorators : List Dec) (target : JSVal) :
    (Except JSErr JSVal) × List Nat :=
  DecorateConstructorAux decorators.reverse target

/-- The body of DecorateProperty's for-loop, same shape with the
(target, propertyKey, descriptor) triple. -/
def DecoratePropertyAux (target propertyKey : JSVal) :
    List Dec → JSVal → (Except JSErr JSVal) × List Nat
  | [], descriptor => (.ok descriptor, [])
  | decorator :: rest, descriptor =>
    let decorated := decorator.onMember target propertyKey descriptor
    if ¬ IsUndefined decorated ∧ ¬ IsNull decorated then
      if ¬ IsObject decorated then (.error .typeError, [decorator.id])
      else
        match DecoratePropertyAux target propertyKey rest decorated with
        | (r, tr) => (r, decorator.id :: tr)
    else
      match DecoratePropertyAux target propertyKey rest descriptor with
      | (r, tr) => (r, decorator.id :: tr)

/-- DecorateProperty(decorators, target, propertyKey, descriptor). -/
def DecorateProperty (decorators : List Dec) (target propertyKey descriptor : JSVal) :
    (Except JSErr JSVal) × List Nat :=
  DecoratePropertyAux target propertyKey decorators.reverse descriptor

/-- Reflect.decorate: member variant when a property key was supplied,
constructor variant otherwise, with the validations of lines 122-144
preceding either loop.  The trace component records which decorators were
invoked. -/
def decorate (H : HostModel) (decorators : DecArg)
    (target propertyKey attributes : JSVal) :
    (Except JSErr JSVal) × List Nat :=
  if ¬ IsUndefined propertyKey then
    if ¬ IsArrayArg decorators then (.error .typeError, [])
    else if ¬ IsObject target then (.error .typeError, [])
    else if ¬ IsObject attributes ∧ ¬ IsUndefined attributes ∧
        ¬ IsNull attributes then (.error .typeError, [])
    else
      let attributes := if IsNull attributes then JSVal.undef else attributes
      match ToPropertyKey H propertyKey with
      | .error e => (.error e, [])
      | .ok propertyKey =>
        DecorateProperty (decsOf decorators) target propertyKey attributes
  else
    if ¬ IsArrayArg decorators then (.error .typeError, [])
    else if ¬ IsConstructor target then (.error .typeError, [])
    else DecorateConstructor (decsOf decorators) target

/-! ## Spec-side characterizations

These definitions follow the specification's wording (prototype chain,
first matching ancestor, key union) and are compared with the source-derived
operations above. -/

/-- The parent chain of a target: the target itself, then its resolved
parents, ending when a parent is null (fuel-bounded). -/
def protoChain (H : HostModel) : Nat → JSVal → List JSVal
  | 0, _ => []
  | fuel + 1, O =>
    let parent := OrdinaryGetPrototypeOf H O
    O :: (if IsNull parent then [] else protoChain H fuel parent)

/-- The first element of a chain carrying own metadata for the key. -/
def firstOwnIn (reg : Registry) (k P : JSVal) : List JSVal → Option JSVal
  | [] => none
  | a :: rest =>
    if (OrdinaryHasOwnMetadata k a P reg).1 then some a
    else firstOwnIn reg k P rest

/-- The metadata map stored at (target, member), if any. -/
def ownMap (reg : Registry) (O P : JSVal) : Option MetadataMap :=
  match mlookup reg O with
  | none => none
  | some tm => mlookup tm P

/-- Registry well-formedness: every level of the nested maps has distinct
keys.  Real JS Map objects guarantee this; the association-list model states
it as an invariant. -/
abbrev WFRegistry (reg : Registry) : Prop :=
  (reg.map Prod.fst).Nodup ∧
    ∀ p ∈ reg, (p.2.map Prod.fst).Nodup ∧
      ∀ q ∈ p.2, (q.2.map Prod.fst).Nodup

/-- The eager-pruning invariant: the registry retains no empty MetadataMap
and no empty TargetEntry. -/
abbrev NoEmptyContainers (reg : Registry) : Prop :=
  ∀ p ∈ reg, p.2 ≠ [] ∧ ∀ q ∈ p.2, q.2 ≠ []

/-! ## Concrete closed instances used to evaluate the development -/

/-- A host model with two plain (non-callable) objects, obj 2 inheriting
from obj 1, and nothing else in the prototype relation. -/
def hostW : HostModel where
  getProtoOf := fun v =>
    if v = JSVal.obj 2 false then JSVal.obj 1 false else JSVal.null
  prototypeProp := fun _ => JSVal.undef
  constructorProp := fun _ => JSVal.undef
  functionPrototype := JSVal.obj 90 true
  objectPrototype := JSVal.obj 91 false
  objToPrim := fun _ _ => .error .typeError

/-- A concrete registry: obj 2 owns keys X, Y; obj 1 (its parent under
hostW) owns keys Y, Z; all on the no-member map. -/
def regW : Registry :=
  [(JSVal.obj 2 false, [(JSVal.undef,
      [(JSVal.str "X", JSVal.num 1), (JSVal.str "Y", JSVal.num 2)])]),
   (JSVal.obj 1 false, [(JSVal.undef,
      [(JSVal.str "Y", JSVal.num 3), (JSVal.str "Z", JSVal.num 4)])])]

/-- A host model exercising the heuristic branch of OrdinaryGetPrototypeOf:
obj 1 (callable) has the root function ancestor obj 90 as its ordinary
prototype and a prototype object obj 2 whose own prototype is null
(degenerate case); obj 5 (callable) is the same but its prototype object
obj 6 has prototype obj 3 whose declared constructor is the callable
obj 4 (recoverable case). -/
def hostC : HostModel where
  getProtoOf := fun v =>
    if v = JSVal.obj 1 true then JSVal.obj 90 true
    else if v = JSVal.obj 5 true then JSVal.obj 90 true
    else if v = JSVal.obj 6 false then JSVal.obj 3 false
    else JSVal.null
  prototypeProp := fun v =>
    if v = JSVal.obj 1 true then JSVal.obj 2 false
    else if v = JSVal.obj 5 true then JSVal.obj 6 false
    else JSVal.undef
  constructorProp := fun v =>
    if v = JSVal.obj 3 false then JSVal.obj 4 true else JSVal.undef
  functionPrototype := JSVal.obj 90 true
  objectPrototype := JSVal.obj 91 false
  objToPrim := fun _ _ => .error .typeError

/-- A decorator returning nothing (undefined) in both call forms. -/
def decNothing : Dec := ⟨1, fun _ => JSVal.undef, fun _ _ _ => JSVal.undef⟩

/-- A second decorator returning nothing, with a distinct id. -/
def decNothing2 : Dec := ⟨2, fun _ => JSVal.undef, fun _ _ _ => JSVal.undef⟩

/-- A decorator replacing the constructor with the callable obj 7. -/
def decReplace : Dec := ⟨3, fun _ => JSVal.obj 7 true, fun _ _ _ => JSVal.undef⟩

/-- A decorator returning an invalid (non-callable) replacement. -/
def decBad : Dec := ⟨4, fun _ => JSVal.num 5, fun _ _ _ => JSVal.num 5⟩

/-! ## Association-list map lemmas -/

theorem mlookup_mset_self {β : Type} :
    ∀ (m : List (JSVal × β)) (k : JSVal) (v : β),
      mlookup (mset m k v) k = some v
  | [], k, v => by simp [mset, mlookup]
  | (k₀, v₀) :: rest, k, v => by
    by_cases h : k₀ = k
    · simp [mset, h, mlookup]
    · simp [mset, h, mlookup, mlookup_mset_self rest k v]

theorem mlookup_mset_ne {β : Type} :
    ∀ (m : List (JSVal × β)) (k : JSVal) (v : β) (k' : JSVal), k' ≠ k →
      mlookup (mset m k v) k' = mlookup m k'
  | [], k, v, k', h => by simp [mset, mlookup, Ne.symm h]
  | (k₀, v₀) :: rest, k, v, k', h => by
    by_cases h₀ : k₀ = k
    · simp [mset, h₀, mlookup, Ne.symm h]
    · simp [mset, h₀, mlookup, mlookup_mset_ne rest k v k' h]

theorem mset_mset_self {β : Type} :
    ∀ (m : List (JSVal × β)) (k : JSVal) (a b : β),
      mset (mset m k a) k b = mset m k b
  | [], k, a, b => by simp [mset]
  | (k₀, v₀) :: rest, k, a, b => by
    by_cases h : k₀ = k
    · simp [mset, h]
    · simp [mset, h, mset_mset_self rest k a b]

theorem mlookup_eq_none_iff {β : Type} :
    ∀ (m : List (JSVal × β)) (k : JSVal),
      mlookup m k = none ↔ k ∉ m.map Prod.fst
  | [], k => by simp [mlookup]
  | (k₀, v₀) :: rest, k => by
    by_cases h : k₀ = k
    · simp [mlookup, h]
    · simp [mlookup, h, mlookup_eq_none_iff rest k, Ne.symm h]

theorem mlookup_mem {β : Type} :
    ∀ (m : List (JSVal × β)) (k : JSVal) (v : β),
      mlookup m k = some v → (k, v) ∈ m
  | [], k, v => by simp [mlookup]
  | (k₀, v₀) :: rest, k, v => by
    by_cases h : k₀ = k
    · subst h
      intro hl
      simp [mlookup] at hl
      simp [hl]
    · intro hl
      simp [mlookup, h] at hl
      exact List.mem_cons_of_mem _ (mlookup_mem rest k v hl)

theorem mlookup_mdelete_ne {β : Type} :
    ∀ (m : List (JSVal × β)) (k k' : JSVal), k' ≠ k →
      mlookup (mdelete m k) k' = mlookup m k'
  | [], _, _, _ => rfl
  | (k₀, v₀) :: rest, k, k', h => by
    by_cases h₀ : k₀ = k
    · simp [mdelete, h₀, mlookup, Ne.symm h]
    · simp [mdelete, h₀, mlookup, mlookup_mdelete_ne rest k k' h]

theorem mlookup_mdelete_self {β : Type} :
    ∀ (m : List (JSVal × β)) (k : JSVal), (m.map Prod.fst).Nodup →
      mlookup (mdelete m k) k = none
  | [], _, _ => rfl
  | (k₀, v₀) :: rest, k, h => by
    rw [List.map_cons, List.nodup_cons] at h
    obtain ⟨hnotin, hnd⟩ := h
    by_cases h₀ : k₀ = k
    · subst h₀
      simpa [mdelete] using (mlookup_eq_none_iff rest k₀).2 hnotin
    · simp [mdelete, h₀, mlookup, mlookup_mdelete_self rest k hnd]

theorem mem_mset {β : Type} :
    ∀ (m : List (JSVal × β)) (k : JSVal) (v : β) (p : JSVal × β),
      p ∈ mset m k v → p ∈ m ∨ p = (k, v)
  | [], k, v, p => by simp [mset]
  | (k₀, v₀) :: rest, k, v, p => by
    by_cases h : k₀ = k
    · intro hp
      simp [mset, h] at hp
      rcases hp with hp | hp
      · right; simp [hp]
      · left; exact List.mem_cons_of_mem _ hp
    · intro hp
      simp [mset, h] at hp
      rcases hp with hp | hp
      · left; simp [hp]
      · rcases mem_mset rest k v p hp with h' | h'
        · left; exact List.mem_cons_of_mem _ h'
        · right; exact h'

theorem mem_mdelete {β : Type} :
    ∀ (m : List (JSVal × β)) (k : JSVal) (p : JSVal × β),
      p ∈ mdelete m k → p ∈ m
  | [], _, p => by simp [mdelete]
  | (k₀, v₀) :: rest, k, p => by
    by_cases h : k₀ = k
    · intro hp
      simp [mdelete, h] at hp
      exact List.mem_cons_of_mem _ hp
    · intro hp
      simp [mdelete, h] at hp
      rcases hp with hp | hp
      · simp [hp]
      · exact List.mem_cons_of_mem _ (mem_mdelete rest k p hp)

theorem mset_ne_nil {β : Type} :
    ∀ (m : List (JSVal × β)) (k : JSVal) (v : β), mset m k v ≠ []
  | [], k, v => by simp [mset]
  | (k₀, v₀) :: rest, k, v => by
    by_cases h : k₀ = k <;> simp [mset, h]

theorem map_fst_mset {β : Type} :
    ∀ (m : List (JSVal × β)) (k : JSVal) (v : β),
      (mset m k v).map Prod.fst =
        if k ∈ m.map Prod.fst then m.map Prod.fst
        else m.map Prod.fst ++ [k]
  | [], k, v => by simp [mset]
  | (k₀, v₀) :: rest, k, v => by
    by_cases h : k₀ = k
    · simp [mset, h]
    · simp only [mset, if_neg h, List.map_cons, map_fst_mset rest k v,
        List.mem_cons]
      by_cases hk : k ∈ rest.map Prod.fst
      · simp [hk, Ne.symm h]
      · simp [hk, Ne.symm h]

theorem map_fst_mdelete {β : Type} :
    ∀ (m : List (JSVal × β)) (k : JSVal), (m.map Prod.fst).Nodup →
      (mdelete m k).map Prod.fst =
        (m.map Prod.fst).filter (fun x => !decide (x = k))
  | [], _, _ => rfl
  | (k₀, v₀) :: rest, k, h => by
    rw [List.map_cons, List.nodup_cons] at h
    obtain ⟨hnotin, hnd⟩ := h
    by_cases h₀ : k₀ = k
    · subst h₀
      have h1 : mdelete ((k₀, v₀) :: rest) k₀ = rest := by simp [mdelete]
      have h2 : (rest.map Prod.fst).filter (fun x => !decide (x = k₀)) =
          rest.map Prod.fst :=
        List.filter_eq_self.2 (fun x hx => by
          simp only [Bool.not_eq_true', decide_eq_false_iff_not]
          intro hxk; exact hnotin (hxk ▸ hx))
      rw [h1, List.map_cons, List.filter_cons]
      simp [h2]
    · have h1 : mdelete ((k₀, v₀) :: rest) k = (k₀, v₀) :: mdelete rest k := by
        simp [mdelete, h₀]
      rw [h1, List.map_cons, List.map_cons, List.filter_cons,
        map_fst_mdelete rest k hnd]
      simp [h₀]

theorem mdelete_eq_nil {β : Type} :
    ∀ (m : List (JSVal × β)) (k : JSVal), mdelete m k = [] →
      m = [] ∨ ∃ v, m = [(k, v)]
  | [], _, _ => Or.inl rfl
  | (k₀, v₀) :: rest, k, h => by
    by_cases h₀ : k₀ = k
    · subst h₀
      simp [mdelete] at h
      right; exact ⟨v₀, by simp [h]⟩
    · simp [mdelete, h₀] at h

/-! ## Store-level lemmas -/

theorem mset_lookup_id {β : Type} :
    ∀ (m : List (JSVal × β)) (k : JSVal) (v : β),
      mlookup m k = some v → mset m k v = m
  | [], k, v => by simp [mlookup]
  | (k₀, v₀) :: rest, k, v => by
    by_cases h : k₀ = k
    · subst h
      intro hl
      simp [mlookup] at hl
      simp [mset, hl]
    · intro hl
      simp [mlookup, h] at hl
      simp [mset, h, mset_lookup_id rest k v hl]

theorem getOrCreate_false (O P : JSVal) (reg : Registry) :
    GetOrCreateMetadataMap O P false reg = (ownMap reg O P, reg) := by
  unfold GetOrCreateMetadataMap ownMap
  cases h₁ : mlookup reg O with
  | none => simp
  | some tm =>
    cases h₂ : mlookup tm P with
    | none => simp [h₂]
    | some mm => simp [h₂]

/-- The creating resolution in normal form: it hands back the (O, P) map
(empty when absent) and the registry with both containers in place; when
they already existed rewriting them is the identity. -/
theorem getOrCreate_true (O P : JSVal) (reg : Registry) :
    GetOrCreateMetadataMap O P true reg =
      (some ((mlookup ((mlookup reg O).getD []) P).getD []),
        mset reg O (mset ((mlookup reg O).getD []) P
          ((mlookup ((mlookup reg O).getD []) P).getD []))) := by
  unfold GetOrCreateMetadataMap
  cases h₁ : mlookup reg O with
  | none => simp [mlookup]
  | some tm =>
    cases h₂ : mlookup tm P with
    | none => simp [h₂]
    | some mm =>
      simp [h₂, mset_lookup_id tm P mm h₂, mset_lookup_id reg O tm h₁]

theorem hasOwn_eq (k O P : JSVal) (reg : Registry) :
    OrdinaryHasOwnMetadata k O P reg =
      ((match ownMap reg O P with
        | none => false
        | some mm => mcontains mm k), reg) := by
  unfold OrdinaryHasOwnMetadata
  rw [getOrCreate_false]
  cases ownMap reg O P <;> simp

theorem getOwn_eq (k O P : JSVal) (reg : Registry) :
    OrdinaryGetOwnMetadata k O P reg =
      ((match ownMap reg O P with
        | none => JSVal.undef
        | some mm => (mlookup mm k).getD JSVal.undef), reg) := by
  unfold OrdinaryGetOwnMetadata
  rw [getOrCreate_false]
  cases ownMap reg O P <;> simp

theorem ownKeys_eq (O P : JSVal) (reg : Registry) :
    OrdinaryOwnMetadataKeys O P reg =
      ((match ownMap reg O P with
        | none => []
        | some mm => mm.map Prod.fst), reg) := by
  unfold OrdinaryOwnMetadataKeys
  rw [getOrCreate_false]
  cases ownMap reg O P <;> simp

/-- Normal form of OrdinaryDefineOwnMetadata: the registry with the (O, P)
map extended by (k, v), all containers created as needed. -/
theorem define_eq (k v O P : JSVal) (reg : Registry) :
    OrdinaryDefineOwnMetadata k v O P reg =
      mset reg O (mset ((mlookup reg O).getD []) P
        (mset ((mlookup ((mlookup reg O).getD []) P).getD []) k v)) := by
  unfold OrdinaryDefineOwnMetadata
  rw [getOrCreate_true]
  unfold setMetadataMap
  simp only [mlookup_mset_self, Option.getD_some, mset_mset_self]

theorem ownMap_define_self (k v O P : JSVal) (reg : Registry) :
    ownMap (OrdinaryDefineOwnMetadata k v O P reg) O P =
      some (mset ((mlookup ((mlookup reg O).getD []) P).getD []) k v) := by
  rw [define_eq]
  unfold ownMap
  rw [mlookup_mset_self]
  simp only [mlookup_mset_self]

theorem ownMap_define_other (k v O P O' P' : JSVal) (reg : Registry)
    (h : ¬ (O' = O ∧ P' = P)) :
    ownMap (OrdinaryDefineOwnMetadata k v O P reg) O' P' =
      ownMap reg O' P' := by
  rw [define_eq]
  unfold ownMap
  by_cases hO : O' = O
  · subst hO
    have hP : P' ≠ P := fun hp => h ⟨rfl, hp⟩
    rw [mlookup_mset_self]
    simp only [mlookup_mset_ne _ _ _ _ hP]
    cases hm : mlookup reg O' with
    | none => simp [mlookup]
    | some tm => simp
  · rw [mlookup_mset_ne _ _ _ _ hO]

/-- The non-creating resolution used on the read path returns the registry
unchanged; the read-side operations inherit this. -/
theorem hasOwn_snd (k O P : JSVal) (reg : Registry) :
    (OrdinaryHasOwnMetadata k O P reg).2 = reg := by
  rw [hasOwn_eq]

theorem getOwn_snd (k O P : JSVal) (reg : Registry) :
    (OrdinaryGetOwnMetadata k O P reg).2 = reg := by
  rw [getOwn_eq]

theorem ownKeys_snd (O P : JSVal) (reg : Registry) :
    (OrdinaryOwnMetadataKeys O P reg).2 = reg := by
  rw [ownKeys_eq]

theorem hasMeta_snd (H : HostModel) :
    ∀ (fuel : Nat) (k O P : JSVal) (reg : Registry),
      (OrdinaryHasMetadata H fuel k O P reg).2 = reg
  | 0, _, _, _, _ => rfl
  | fuel + 1, k, O, P, reg => by
    unfold OrdinaryHasMetadata
    by_cases h : (OrdinaryHasOwnMetadata k O P reg).1 = true
    · show (if (OrdinaryHasOwnMetadata k O P reg).1 = true then _ else _ :
          Option Bool × Registry).2 = reg
      rw [if_pos h]
      exact hasOwn_snd k O P reg
    · show (if (OrdinaryHasOwnMetadata k O P reg).1 = true then _ else _ :
          Option Bool × Registry).2 = reg
      rw [if_neg h]
      by_cases hp : ¬ IsNull (OrdinaryGetPrototypeOf H O) = true
      · show (if ¬ IsNull (OrdinaryGetPrototypeOf H O) = true then _ else _ :
            Option Bool × Registry).2 = reg
        rw [if_pos hp, hasOwn_snd]
        exact hasMeta_snd H fuel k _ P reg
      · show (if ¬ IsNull (OrdinaryGetPrototypeOf H O) = true then _ else _ :
            Option Bool × Registry).2 = reg
        rw [if_neg hp]
        exact hasOwn_snd k O P reg

theorem getMeta_snd (H : HostModel) :
    ∀ (fuel : Nat) (k O P : JSVal) (reg : Registry),
      (OrdinaryGetMetadata H fuel k O P reg).2 = reg
  | 0, _, _, _, _ => rfl
  | fuel + 1, k, O, P, reg => by
    unfold OrdinaryGetMetadata
    by_cases h : (OrdinaryHasOwnMetadata k O P reg).1 = true
    · show (if (OrdinaryHasOwnMetadata k O P reg).1 = true then _ else _ :
          Option JSVal × Registry).2 = reg
      rw [if_pos h]
      show (OrdinaryGetOwnMetadata k O P (OrdinaryHasOwnMetadata k O P reg).2).2 = reg
      rw [hasOwn_snd]
      exact getOwn_snd k O P reg
    · show (if (OrdinaryHasOwnMetadata k O P reg).1 = true then _ else _ :
          Option JSVal × Registry).2 = reg
      rw [if_neg h]
      by_cases hp : ¬ IsNull (OrdinaryGetPrototypeOf H O) = true
      · show (if ¬ IsNull (OrdinaryGetPrototypeOf H O) = true then _ else _ :
            Option JSVal × Registry).2 = reg
        rw [if_pos hp, hasOwn_snd]
        exact getMeta_snd H fuel k _ P reg
      · show (if ¬ IsNull (OrdinaryGetPrototypeOf H O) = true then _ else _ :
            Option JSVal × Registry).2 = reg
        rw [if_neg hp]
        exact hasOwn_snd k O P reg

theorem metaKeys_snd (H : HostModel) :
    ∀ (fuel : Nat) (O P : JSVal) (reg : Registry),
      (OrdinaryMetadataKeys H fuel O P reg).2 = reg
  | 0, _, _, _ => rfl
  | fuel + 1, O, P, reg => by
    unfold OrdinaryMetadataKeys
    by_cases h : OrdinaryGetPrototypeOf H O = JSVal.null
    · show (if OrdinaryGetPrototypeOf H O = JSVal.null then _ else _ :
          Option (List JSVal) × Registry).2 = reg
      rw [if_pos h]
      exact ownKeys_snd O P reg
    · show (if OrdinaryGetPrototypeOf H O = JSVal.null then _ else _ :
          Option (List JSVal) × Registry).2 = reg
      rw [if_neg h]
      have hrec := metaKeys_snd H fuel (OrdinaryGetPrototypeOf H O) P
        (OrdinaryOwnMetadataKeys O P reg).2
      rw [ownKeys_snd] at hrec
      show (match (OrdinaryMetadataKeys H fuel (OrdinaryGetPrototypeOf H O) P
          (OrdinaryOwnMetadataKeys O P reg).2).1 with
        | none => _
        | some parentKeys => _ : Option (List JSVal) × Registry).2 = reg
      rw [ownKeys_snd]
      cases hk : (OrdinaryMetadataKeys H fuel (OrdinaryGetPrototypeOf H O) P reg).1 with
      | none => exact hrec
      | some parentKeys =>
        show (if parentKeys.length ≤ 0 then _ else _ :
            Option (List JSVal) × Registry).2 = reg
        by_cases h₁ : parentKeys.length ≤ 0
        · rw [if_pos h₁]; exact hrec
        · rw [if_neg h₁]
          by_cases h₂ : (OrdinaryOwnMetadataKeys O P reg).1.length ≤ 0
          · show (if (OrdinaryOwnMetadataKeys O P reg).1.length ≤ 0
                then _ else _ : Option (List JSVal) × Registry).2 = reg
            rw [if_pos h₂]; exact hrec
          · show (if (OrdinaryOwnMetadataKeys O P reg).1.length ≤ 0
                then _ else _ : Option (List JSVal) × Registry).2 = reg
            rw [if_neg h₂]; exact hrec

/-! ## Unfolding lemmas for the chain walkers (registry normalized) -/

theorem hasMeta_succ (H : HostModel) (fuel : Nat) (k O P : JSVal)
    (reg : Registry) :
    (OrdinaryHasMetadata H (fuel + 1) k O P reg).1 =
      (if (OrdinaryHasOwnMetadata k O P reg).1 then some true
       else if ¬ IsNull (OrdinaryGetPrototypeOf H O) then
         (OrdinaryHasMetadata H fuel k (OrdinaryGetPrototypeOf H O) P reg).1
       else some false) := by
  by_cases h : (OrdinaryHasOwnMetadata k O P reg).1 = true
  · simp [OrdinaryHasMetadata, h]
  · by_cases hp : IsNull (OrdinaryGetPrototypeOf H O) = true
    · simp [OrdinaryHasMetadata, h, hp]
    · simp [OrdinaryHasMetadata, h, hp, hasOwn_snd]

theorem getMeta_succ (H : HostModel) (fuel : Nat) (k O P : JSVal)
    (reg : Registry) :
    (OrdinaryGetMetadata H (fuel + 1) k O P reg).1 =
      (if (OrdinaryHasOwnMetadata k O P reg).1 then
         some (OrdinaryGetOwnMetadata k O P reg).1
       else if ¬ IsNull (OrdinaryGetPrototypeOf H O) then
         (OrdinaryGetMetadata H fuel k (OrdinaryGetPrototypeOf H O) P reg).1
       else some JSVal.undef) := by
  by_cases h : (OrdinaryHasOwnMetadata k O P reg).1 = true
  · simp [OrdinaryGetMetadata, h, hasOwn_snd]
  · by_cases hp : IsNull (OrdinaryGetPrototypeOf H O) = true
    · simp [OrdinaryGetMetadata, h, hp]
    · simp [OrdinaryGetMetadata, h, hp, hasOwn_snd]

theorem metaKeys_succ (H : HostModel) (fuel : Nat) (O P : JSVal)
    (reg : Registry) :
    (OrdinaryMetadataKeys H (fuel + 1) O P reg).1 =
      (if OrdinaryGetPrototypeOf H O = JSVal.null then
         some (OrdinaryOwnMetadataKeys O P reg).1
       else
         match (OrdinaryMetadataKeys H fuel (OrdinaryGetPrototypeOf H O) P
             reg).1 with
         | none => none
         | some parentKeys =>
           if parentKeys.length ≤ 0 then
             some (OrdinaryOwnMetadataKeys O P reg).1
           else if (OrdinaryOwnMetadataKeys O P reg).1.length ≤ 0 then
             some parentKeys
           else
             some (addUniqueAll
               (addUniqueAll ([], []) (OrdinaryOwnMetadataKeys O P reg).1)
               parentKeys).2) := by
  by_cases h : OrdinaryGetPrototypeOf H O = JSVal.null
  · simp [OrdinaryMetadataKeys, h]
  · cases hpk : (OrdinaryMetadataKeys H fuel (OrdinaryGetPrototypeOf H O) P
        reg).1 with
    | none => simp [OrdinaryMetadataKeys, h, ownKeys_snd, hpk]
    | some parentKeys =>
      by_cases h₁ : parentKeys.length ≤ 0
      · simp [OrdinaryMetadataKeys, h, ownKeys_snd, hpk, h₁]
      · by_cases h₂ : (OrdinaryOwnMetadataKeys O P reg).1.length ≤ 0
        · simp [OrdinaryMetadataKeys, h, ownKeys_snd, hpk, h₁, h₂]
        · simp [OrdinaryMetadataKeys, h, ownKeys_snd, hpk, h₁, h₂]

/-! ## The de-duplication loop -/

theorem addUniqueAll_fst_mem :
    ∀ (l : List JSVal) (st : List JSVal × List JSVal) (x : JSVal),
      x ∈ (addUniqueAll st l).1 ↔ x ∈ st.1 ∨ x ∈ l
  | [], st, x => by simp [addUniqueAll]
  | key :: rest, st, x => by
    have step : addUniqueAll st (key :: rest) =
        addUniqueAll (addUnique st key) rest := by
      simp [addUniqueAll, List.foldl_cons]
    rw [step, addUniqueAll_fst_mem rest (addUnique st key) x]
    by_cases hk : key ∈ st.1
    · have haddu : addUnique st key = st := by simp [addUnique, hk]
      rw [haddu]
      constructor
      · rintro (h | h)
        · exact Or.inl h
        · exact Or.inr (List.mem_cons_of_mem _ h)
      · rintro (h | h)
        · exact Or.inl h
        · rcases List.mem_cons.1 h with rfl | h
          · exact Or.inl hk
          · exact Or.inr h
    · have haddu : addUnique st key = (key :: st.1, st.2 ++ [key]) := by
        simp [addUnique, hk]
      rw [haddu]
      constructor
      · rintro (h | h)
        · rcases List.mem_cons.1 h with rfl | h
          · exact Or.inr (List.mem_cons_self _ _)
          · exact Or.inl h
        · exact Or.inr (List.mem_cons_of_mem _ h)
      · rintro (h | h)
        · exact Or.inl (List.mem_cons_of_mem _ h)
        · rcases List.mem_cons.1 h with rfl | h
          · exact Or.inl (List.mem_cons_self _ _)
          · exact Or.inr h

theorem addUniqueAll_snd :
    ∀ (l : List JSVal) (st : List JSVal × List JSVal), l.Nodup →
      (addUniqueAll st l).2 =
        st.2 ++ l.filter (fun x => !decide (x ∈ st.1))
  | [], st, _ => by simp [addUniqueAll]
  | key :: rest, st, hnd => by
    have step : addUniqueAll st (key :: rest) =
        addUniqueAll (addUnique st key) rest := by
      simp [addUniqueAll, List.foldl_cons]
    rw [List.nodup_cons] at hnd
    obtain ⟨hkr, hnd⟩ := hnd
    rw [step, addUniqueAll_snd rest (addUnique st key) hnd]
    by_cases hk : key ∈ st.1
    · have haddu : addUnique st key = st := by simp [addUnique, hk]
      rw [haddu, List.filter_cons]
      simp [hk]
    · have haddu : addUnique st key = (key :: st.1, st.2 ++ [key]) := by
        simp [addUnique, hk]
      rw [haddu, List.filter_cons]
      have hfc : rest.filter (fun x => !decide (x ∈ key :: st.1)) =
          rest.filter (fun x => !decide (x ∈ st.1)) := by
        apply List.filter_congr
        intro x hx
        have hxk : x ≠ key := fun h => hkr (h ▸ hx)
        simp [List.mem_cons, hxk]
      rw [hfc]
      simp [hk, List.append_assoc]

theorem addUniqueAll_nodup :
    ∀ (l : List JSVal) (st : List JSVal × List JSVal),
      st.2.Nodup → (∀ x ∈ st.2, x ∈ st.1) →
      (addUniqueAll st l).2.Nodup ∧
        ∀ x ∈ (addUniqueAll st l).2, x ∈ (addUniqueAll st l).1
  | [], st, h₁, h₂ => ⟨h₁, h₂⟩
  | key :: rest, st, h₁, h₂ => by
    have step : addUniqueAll st (key :: rest) =
        addUniqueAll (addUnique st key) rest := by
      simp [addUniqueAll, List.foldl_cons]
    rw [step]
    by_cases hk : key ∈ st.1
    · have haddu : addUnique st key = st := by simp [addUnique, hk]
      rw [haddu]
      exact addUniqueAll_nodup rest st h₁ h₂
    · have haddu : addUnique st key = (key :: st.1, st.2 ++ [key]) := by
        simp [addUnique, hk]
      rw [haddu]
      apply addUniqueAll_nodup rest (key :: st.1, st.2 ++ [key])
      · simp only [List.nodup_append, List.nodup_cons, List.not_mem_nil,
          not_false_iff, List.nodup_nil, and_true, true_and]
        constructor
        · exact h₁
        · intro x hx hcx
          rcases List.mem_singleton.1 hcx with rfl
          exact hk (h₂ x hx)
      · intro x hx
        rcases List.mem_append.1 hx with h | h
        · exact List.mem_cons_of_mem _ (h₂ x h)
        · rcases List.mem_singleton.1 h with rfl
          exact List.mem_cons_self _ _

/-! ## Nodup of key lists under well-formedness -/

theorem ownKeys_nodup (O P : JSVal) (reg : Registry) (hWF : WFRegistry reg) :
    ((OrdinaryOwnMetadataKeys O P reg).1).Nodup := by
  rw [ownKeys_eq]
  cases hm : ownMap reg O P with
  | none => simp
  | some mm =>
    simp only
    unfold ownMap at hm
    cases h₁ : mlookup reg O with
    | none => rw [h₁] at hm; exact absurd hm (by simp)
    | some tm =>
      rw [h₁] at hm
      have htm := mlookup_mem reg O tm h₁
      have hmm := mlookup_mem tm P mm hm
      exact ((hWF.2 (O, tm) htm).2 (P, mm) hmm)

theorem metaKeys_nodup (H : HostModel) (P : JSVal) (reg : Registry)
    (hWF : WFRegistry reg) :
    ∀ (fuel : Nat) (O : JSVal) (ks : List JSVal),
      (OrdinaryMetadataKeys H fuel O P reg).1 = some ks → ks.Nodup
  | 0, O, ks => by simp [OrdinaryMetadataKeys]
  | fuel + 1, O, ks => by
    rw [metaKeys_succ]
    by_cases h : OrdinaryGetPrototypeOf H O = JSVal.null
    · rw [if_pos h]
      intro hk
      cases hk
      exact ownKeys_nodup O P reg hWF
    · rw [if_neg h]
      cases hpk : (OrdinaryMetadataKeys H fuel (OrdinaryGetPrototypeOf H O) P
          reg).1 with
      | none => simp
      | some parentKeys =>
        have hpknd := metaKeys_nodup H P reg hWF fuel _ parentKeys hpk
        show (if parentKeys.length ≤ 0 then
              some (OrdinaryOwnMetadataKeys O P reg).1
            else if (OrdinaryOwnMetadataKeys O P reg).1.length ≤ 0 then
              some parentKeys
            else
              some (addUniqueAll
                (addUniqueAll ([], []) (OrdinaryOwnMetadataKeys O P reg).1)
                parentKeys).2) = some ks → ks.Nodup
        by_cases h₁ : parentKeys.length ≤ 0
        · rw [if_pos h₁]
          intro hk
          cases hk
          exact ownKeys_nodup O P reg hWF
        · rw [if_neg h₁]
          by_cases h₂ : (OrdinaryOwnMetadataKeys O P reg).1.length ≤ 0
          · rw [if_pos h₂]
            intro hk
            cases hk
            exact hpknd
          · rw [if_neg h₂]
            intro hk
            cases hk
            have s₁ := addUniqueAll_nodup (OrdinaryOwnMetadataKeys O P reg).1
              ([], []) (by simp) (by simp)
            exact (addUniqueAll_nodup parentKeys _ s₁.1 s₁.2).1

/-! ## Further helper lemmas -/

theorem mcontains_iff {β : Type} (m : List (JSVal × β)) (k : JSVal) :
    mcontains m k = true ↔ k ∈ m.map Prod.fst := by
  unfold mcontains
  rw [Option.isSome_iff_ne_none]
  constructor
  · intro h
    by_contra hn
    exact h ((mlookup_eq_none_iff m k).2 hn)
  · intro h hn
    exact (mlookup_eq_none_iff m k).1 hn h

theorem mm_getD_ownMap (O P : JSVal) (reg : Registry) :
    (mlookup ((mlookup reg O).getD []) P).getD [] =
      (ownMap reg O P).getD [] := by
  unfold ownMap
  cases mlookup reg O with
  | none => simp [mlookup]
  | some tm => simp

/-- Claims C4 and others connect hasOwn with the own map contents. -/
theorem hasOwn_fst (k O P : JSVal) (reg : Registry) :
    (OrdinaryHasOwnMetadata k O P reg).1 =
      (match ownMap reg O P with
       | none => false
       | some mm => mcontains mm k) := by
  rw [hasOwn_eq]

theorem getOwn_fst (k O P : JSVal) (reg : Registry) :
    (OrdinaryGetOwnMetadata k O P reg).1 =
      (match ownMap reg O P with
       | none => JSVal.undef
       | some mm => (mlookup mm k).getD JSVal.undef) := by
  rw [getOwn_eq]

theorem ownKeys_fst (O P : JSVal) (reg : Registry) :
    (OrdinaryOwnMetadataKeys O P reg).1 =
      (match ownMap reg O P with
       | none => []
       | some mm => mm.map Prod.fst) := by
  rw [ownKeys_eq]

/-! ## Claim C4 -/

/-- C4: immediately after OrdinaryDefineOwnMetadata(key, value, target,
member), OrdinaryGetOwnMetadata returns the value and
OrdinaryHasOwnMetadata is true, for every registry, target, member and key;
and redefining the same key overwrites, so only the latest value is
retrievable. -/
theorem define_then_getOwn (k v v' O P : JSVal) (reg : Registry) :
    ((OrdinaryGetOwnMetadata k O P
        (OrdinaryDefineOwnMetadata k v O P reg)).1 = v ∧
      (OrdinaryHasOwnMetadata k O P
        (OrdinaryDefineOwnMetadata k v O P reg)).1 = true) ∧
    (OrdinaryGetOwnMetadata k O P
        (OrdinaryDefineOwnMetadata k v' O P
          (OrdinaryDefineOwnMetadata k v O P reg))).1 = v' := by
  refine ⟨⟨?_, ?_⟩, ?_⟩
  · rw [getOwn_fst, ownMap_define_self]
    simp [mlookup_mset_self]
  · rw [hasOwn_fst, ownMap_define_self]
    simp [mcontains, mlookup_mset_self]
  · rw [getOwn_fst, ownMap_define_self]
    simp [mlookup_mset_self]

/-! ## Claim C7 -/

/-- C7: OrdinaryOwnMetadataKeys lists the keys defined directly on
(target, member) in first-insertion order with no duplicates: defining a
fresh key appends it at the end, redefining an existing key leaves the key
list (hence the original position) unchanged, and under the Map invariant
the list has no duplicates. -/
theorem ownKeys_insertion_order (k v O P : JSVal) (reg : Registry) :
    ((OrdinaryHasOwnMetadata k O P reg).1 = false →
      (OrdinaryOwnMetadataKeys O P
          (OrdinaryDefineOwnMetadata k v O P reg)).1 =
        (OrdinaryOwnMetadataKeys O P reg).1 ++ [k]) ∧
    ((OrdinaryHasOwnMetadata k O P reg).1 = true →
      (OrdinaryOwnMetadataKeys O P
          (OrdinaryDefineOwnMetadata k v O P reg)).1 =
        (OrdinaryOwnMetadataKeys O P reg).1) ∧
    (WFRegistry reg → ((OrdinaryOwnMetadataKeys O P reg).1).Nodup) := by
  refine ⟨?_, ?_, fun hWF => ownKeys_nodup O P reg hWF⟩
  · intro h
    rw [ownKeys_fst, ownMap_define_self, ownKeys_fst]
    rw [hasOwn_fst] at h
    simp only [mm_getD_ownMap]
    cases hm : ownMap reg O P with
    | none =>
      simp only [hm, Option.getD_none] at *
      rw [map_fst_mset]
      simp
    | some mm =>
      simp only [hm] at h
      simp only [hm, Option.getD_some]
      rw [map_fst_mset]
      rw [if_neg (fun hmem =>
        absurd ((mcontains_iff mm k).2 hmem) (by simp [h]))]
  · intro h
    rw [ownKeys_fst, ownMap_define_self, ownKeys_fst]
    rw [hasOwn_fst] at h
    simp only [mm_getD_ownMap]
    cases hm : ownMap reg O P with
    | none =>
      simp only [hm] at h
      exact absurd h (by simp)
    | some mm =>
      simp only [hm] at h
      simp only [hm, Option.getD_some]
      rw [map_fst_mset]
      rw [if_pos ((mcontains_iff mm k).1 h)]

/-- C7 witness: on the concrete registry, obj 2's no-member keys are
[X, Y]; defining the fresh key Q appends it, giving [X, Y, Q]. -/
theorem ownKeys_insertion_order_witness :
    (OrdinaryHasOwnMetadata (JSVal.str "Q") (JSVal.obj 2 false) JSVal.undef
        regW).1 = false ∧
    (OrdinaryOwnMetadataKeys (JSVal.obj 2 false) JSVal.undef
        (OrdinaryDefineOwnMetadata (JSVal.str "Q") (JSVal.num 9)
          (JSVal.obj 2 false) JSVal.undef regW)).1 =
      (OrdinaryOwnMetadataKeys (JSVal.obj 2 false) JSVal.undef regW).1 ++
        [JSVal.str "Q"] :=
  ⟨by decide,
    (ownKeys_insertion_order (JSVal.str "Q") (JSVal.num 9)
      (JSVal.obj 2 false) JSVal.undef regW).1 (by decide)⟩

/-! ## Claim C1: chain walking -/

theorem hasMeta_chain (H : HostModel) (k P : JSVal) (reg : Registry) :
    ∀ (fuel : Nat) (O : JSVal) (b : Bool),
      (OrdinaryHasMetadata H fuel k O P reg).1 = some b →
      b = (protoChain H fuel O).any
        (fun a => (OrdinaryHasOwnMetadata k a P reg).1)
  | 0, O, b => by simp [OrdinaryHasMetadata]
  | fuel + 1, O, b => by
    rw [hasMeta_succ]
    by_cases h : (OrdinaryHasOwnMetadata k O P reg).1 = true
    · rw [if_pos h]
      intro hk
      cases hk
      simp [protoChain, List.any_cons, h]
    · rw [if_neg h]
      simp only [Bool.not_eq_true] at h
      by_cases hp : IsNull (OrdinaryGetPrototypeOf H O) = true
      · rw [if_neg (by simp [hp])]
        intro hk
        cases hk
        simp [protoChain, hp, List.any_cons, h]
      · rw [if_pos (by simp [hp])]
        intro hk
        have ih := hasMeta_chain H k P reg fuel (OrdinaryGetPrototypeOf H O)
          b hk
        simp only [Bool.not_eq_true] at hp
        simp [protoChain, hp, List.any_cons, h, ih]

theorem getMeta_chain (H : HostModel) (k P : JSVal) (reg : Registry) :
    ∀ (fuel : Nat) (O : JSVal) (r : JSVal),
      (OrdinaryGetMetadata H fuel k O P reg).1 = some r →
      r = (match firstOwnIn reg k P (protoChain H fuel O) with
           | some a => (OrdinaryGetOwnMetadata k a P reg).1
           | none => JSVal.undef)
  | 0, O, r => by simp [OrdinaryGetMetadata]
  | fuel + 1, O, r => by
    rw [getMeta_succ]
    by_cases h : (OrdinaryHasOwnMetadata k O P reg).1 = true
    · rw [if_pos h]
      intro hk
      cases hk
      simp [protoChain, firstOwnIn, h]
    · rw [if_neg h]
      simp only [Bool.not_eq_true] at h
      by_cases hp : IsNull (OrdinaryGetPrototypeOf H O) = true
      · rw [if_neg (by simp [hp])]
        intro hk
        cases hk
        simp [protoChain, hp, firstOwnIn, h]
      · rw [if_pos (by simp [hp])]
        intro hk
        have ih := getMeta_chain H k P reg fuel (OrdinaryGetPrototypeOf H O)
          r hk
        simp only [Bool.not_eq_true] at hp
        simp [protoChain, hp, firstOwnIn, h, ih]

/-- C1: when the chain walk completes, OrdinaryHasMetadata is true exactly
when some target on the parent chain (the target itself or, recursively,
its resolved parents, stopping at a null parent) carries own metadata for
the key; and OrdinaryGetMetadata returns the own value of the first such
target, or undefined when the chain is exhausted without a match. -/
theorem chain_walk_has_get (H : HostModel) (fuel : Nat) (k O P : JSVal)
    (reg : Registry) :
    (∀ b, (OrdinaryHasMetadata H fuel k O P reg).1 = some b →
      (b = true ↔ ∃ a ∈ protoChain H fuel O,
        (OrdinaryHasOwnMetadata k a P reg).1 = true)) ∧
    (∀ r, (OrdinaryGetMetadata H fuel k O P reg).1 = some r →
      r = (match firstOwnIn reg k P (protoChain H fuel O) with
           | some a => (OrdinaryGetOwnMetadata k a P reg).1
           | none => JSVal.undef)) := by
  constructor
  · intro b hb
    rw [hasMeta_chain H k P reg fuel O b hb]
    rw [List.any_eq_true]
  · exact getMeta_chain H k P reg fuel O

/-- C1 witness: on the concrete two-object chain, key Z is own metadata of
the parent obj 1 only; the walk from obj 2 finds it. -/
theorem chain_walk_has_get_witness :
    ((OrdinaryHasMetadata hostW 2 (JSVal.str "Z") (JSVal.obj 2 false)
        JSVal.undef regW).1 = some true ∧
      (true = true ↔ ∃ a ∈ protoChain hostW 2 (JSVal.obj 2 false),
        (OrdinaryHasOwnMetadata (JSVal.str "Z") a JSVal.undef regW).1 =
          true)) ∧
    ((OrdinaryGetMetadata hostW 2 (JSVal.str "Z") (JSVal.obj 2 false)
        JSVal.undef regW).1 = some (JSVal.num 4) ∧
      JSVal.num 4 =
        (match firstOwnIn regW (JSVal.str "Z") JSVal.undef
            (protoChain hostW 2 (JSVal.obj 2 false)) with
         | some a =>
           (OrdinaryGetOwnMetadata (JSVal.str "Z") a JSVal.undef regW).1
         | none => JSVal.undef)) :=
  ⟨⟨by decide,
      (chain_walk_has_get hostW 2 (JSVal.str "Z") (JSVal.obj 2 false)
        JSVal.undef regW).1 true (by decide)⟩,
    ⟨by decide,
      (chain_walk_has_get hostW 2 (JSVal.str "Z") (JSVal.obj 2 false)
        JSVal.undef regW).2 (JSVal.num 4) (by decide)⟩⟩

/-! ## Claim C2: the parent-resolution heuristic -/

/-- C2 counterexample: for the concrete constructor obj 1 (callable, with
the root function ancestor obj 90 as ordinary prototype, and a prototype
object whose own prototype is null — the degenerate case in which the claim
asserts the resolver returns null/none), OrdinaryGetPrototypeOf returns the
root function ancestor obj 90 itself, which is not null. -/
theorem getPrototypeOf_heuristic_counterexample :
    IsConstructor (JSVal.obj 1 true) = true ∧
    hostC.getProtoOf (JSVal.obj 1 true) = hostC.functionPrototype ∧
    ToBoolean (hostC.prototypeProp (JSVal.obj 1 true)) = true ∧
    hostC.getProtoOf (hostC.prototypeProp (JSVal.obj 1 true)) = JSVal.null ∧
    OrdinaryGetPrototypeOf hostC (JSVal.obj 1 true) = JSVal.obj 90 true ∧
    JSVal.obj 90 true ≠ JSVal.null := by
  refine ⟨by decide, by decide, by decide, by decide, by decide, by decide⟩

/-- C2 amended: for a constructor-like target (other than the root function
ancestor itself) whose ordinary inheritance predecessor is the root
function ancestor, if the prototype object's own prototype is null,
undefined, or the generic base object prototype, or its declared
constructor is not callable, or is the target itself, then the resolver
returns the ordinary inheritance predecessor (the root function ancestor)
unchanged — not null; otherwise it returns that constructor as the
parent. -/
theorem getPrototypeOf_heuristic_amended (H : HostModel) (O : JSVal)
    (hc : IsCallable O = true) (hfp : O ≠ H.functionPrototype)
    (hproto : H.getProtoOf O = H.functionPrototype) :
    OrdinaryGetPrototypeOf H O =
      (let prototype := H.prototypeProp O
       let prototypeProto :=
         if ToBoolean prototype then H.getProtoOf prototype else prototype
       if (prototypeProto = JSVal.null ∨ prototypeProto = JSVal.undef) ∨
           prototypeProto = H.objectPrototype then H.getProtoOf O
       else
         let constructor := H.constructorProp prototypeProto
         if ¬ IsCallable constructor then H.getProtoOf O
         else if constructor = O then H.getProtoOf O
         else constructor) := by
  unfold OrdinaryGetPrototypeOf
  rw [if_neg (by
    rintro (h | h)
    · exact h hc
    · exact hfp h)]
  rw [if_neg (by
    intro h
    exact h hproto)]

/-- C2 amended witness: the recoverable concrete case — obj 5's prototype
object obj 6 has prototype obj 3 with callable constructor obj 4, so the
resolver returns obj 4. -/
theorem getPrototypeOf_heuristic_amended_witness :
    (IsCallable (JSVal.obj 5 true) = true ∧
      JSVal.obj 5 true ≠ hostC.functionPrototype ∧
      hostC.getProtoOf (JSVal.obj 5 true) = hostC.functionPrototype) ∧
    OrdinaryGetPrototypeOf hostC (JSVal.obj 5 true) =
      (let prototype := hostC.prototypeProp (JSVal.obj 5 true)
       let prototypeProto :=
         if ToBoolean prototype then hostC.getProtoOf prototype else prototype
       if (prototypeProto = JSVal.null ∨ prototypeProto = JSVal.undef) ∨
           prototypeProto = hostC.objectPrototype then
         hostC.getProtoOf (JSVal.obj 5 true)
       else
         let constructor := hostC.constructorProp prototypeProto
         if ¬ IsCallable constructor then hostC.getProtoOf (JSVal.obj 5 true)
         else if constructor = JSVal.obj 5 true then
           hostC.getProtoOf (JSVal.obj 5 true)
         else constructor) :=
  ⟨⟨by decide, by decide, by decide⟩,
    getPrototypeOf_heuristic_amended hostC (JSVal.obj 5 true) (by decide)
      (by decide) (by decide)⟩

/-! ## Claim C10: a null member key is not the no-member sentinel -/

/-- C10: only undefined selects the no-member map; a null member key is
normalized by ToPropertyKey to the string "null", so defineMetadata with a
null member key stores under the member key "null": the no-member own map
is unchanged, while hasOwn at member "null" becomes true. -/
theorem null_member_key_not_sentinel (H : HostModel) (k v O : JSVal)
    (reg : Registry) (hObj : IsObject O = true) :
    ToPropertyKey H JSVal.null = .ok (JSVal.str "null") ∧
    defineMetadata H k v O JSVal.null reg =
      .ok (OrdinaryDefineOwnMetadata k v O (JSVal.str "null") reg) ∧
    (OrdinaryGetOwnMetadata k O JSVal.undef
        (OrdinaryDefineOwnMetadata k v O (JSVal.str "null") reg)).1 =
      (OrdinaryGetOwnMetadata k O JSVal.undef reg).1 ∧
    (OrdinaryHasOwnMetadata k O (JSVal.str "null")
        (OrdinaryDefineOwnMetadata k v O (JSVal.str "null") reg)).1 =
      true := by
  refine ⟨rfl, ?_, ?_, ?_⟩
  · unfold defineMetadata
    rw [if_neg (by simp [hObj])]
    rfl
  · rw [getOwn_fst, getOwn_fst,
      ownMap_define_other k v O (JSVal.str "null") O JSVal.undef reg
        (by simp)]
  · rw [hasOwn_fst, ownMap_define_self]
    simp [mcontains, mlookup_mset_self]

/-- C10 witness: concrete instance on obj 2 with an initially empty
registry. -/
theorem null_member_key_not_sentinel_witness :
    IsObject (JSVal.obj 2 false) = true ∧
    (ToPropertyKey hostW JSVal.null = .ok (JSVal.str "null") ∧
      defineMetadata hostW (JSVal.str "k") (JSVal.num 7) (JSVal.obj 2 false)
          JSVal.null [] =
        .ok (OrdinaryDefineOwnMetadata (JSVal.str "k") (JSVal.num 7)
          (JSVal.obj 2 false) (JSVal.str "null") []) ∧
      (OrdinaryGetOwnMetadata (JSVal.str "k") (JSVal.obj 2 false) JSVal.undef
          (OrdinaryDefineOwnMetadata (JSVal.str "k") (JSVal.num 7)
            (JSVal.obj 2 false) (JSVal.str "null") [])).1 =
        (OrdinaryGetOwnMetadata (JSVal.str "k") (JSVal.obj 2 false)
          JSVal.undef []).1 ∧
      (OrdinaryHasOwnMetadata (JSVal.str "k") (JSVal.obj 2 false)
          (JSVal.str "null")
          (OrdinaryDefineOwnMetadata (JSVal.str "k") (JSVal.num 7)
            (JSVal.obj 2 false) (JSVal.str "null") [])).1 = true) :=
  ⟨by decide,
    null_member_key_not_sentinel hostW (JSVal.str "k") (JSVal.num 7)
      (JSVal.obj 2 false) [] (by decide)⟩

/-! ## Claim C6: constructor decoration -/

theorem decorateCtorAux_trace :
    ∀ (l : List Dec) (t v : JSVal),
      (DecorateConstructorAux l t).1 = .ok v →
      (DecorateConstructorAux l t).2 = l.map Dec.id
  | [], t, v => by simp [DecorateConstructorAux]
  | d :: rest, t, v => by
    unfold DecorateConstructorAux
    by_cases h1 : ¬ IsUndefined (d.onCtor t) = true ∧
        ¬ IsNull (d.onCtor t) = true
    · rw [if_pos h1]
      by_cases h2 : ¬ IsConstructor (d.onCtor t) = true
      · rw [if_pos h2]
        intro hk
        exact absurd hk (by simp)
      · rw [if_neg h2]
        intro hk
        have ih := decorateCtorAux_trace rest (d.onCtor t) v hk
        show d.id :: (DecorateConstructorAux rest (d.onCtor t)).2 =
          d.id :: rest.map Dec.id
        rw [ih]
    · rw [if_neg h1]
      intro hk
      have ih := decorateCtorAux_trace rest t v hk
      show d.id :: (DecorateConstructorAux rest t).2 = d.id :: rest.map Dec.id
      rw [ih]

theorem decorateCtorAux_nothing :
    ∀ (l : List Dec) (t : JSVal),
      (∀ d ∈ l, d.onCtor t = JSVal.undef ∨ d.onCtor t = JSVal.null) →
      DecorateConstructorAux l t = (.ok t, l.map Dec.id)
  | [], t, _ => rfl
  | d :: rest, t, h => by
    unfold DecorateConstructorAux
    have hd := h d (List.mem_cons_self _ _)
    have hcond : ¬ (¬ IsUndefined (d.onCtor t) = true ∧
        ¬ IsNull (d.onCtor t) = true) := by
      rcases hd with hd | hd <;> simp [hd, IsUndefined, IsNull]
    rw [if_neg hcond]
    have ih := decorateCtorAux_nothing rest t
      (fun d' hd' => h d' (List.mem_cons_of_mem _ hd'))
    show ((DecorateConstructorAux rest t).1,
        d.id :: (DecorateConstructorAux rest t).2) =
      (Except.ok t, d.id :: rest.map Dec.id)
    rw [ih]

/-- C6: DecorateConstructor folds the decorator list from the last element
to the first, threading the current constructor value: appending a
decorator at the end of the list makes it run first (on the original
target), its non-absent non-null return value must be constructor-like —
otherwise a type error is raised with no further decorator applied — and
becomes the input of the remaining decorators; when the fold succeeds, the
invocation order is exactly the reverse of the list order; and when every
decorator returns nothing, the original constructor comes back
unchanged. -/
theorem decorateConstructor_reverse_fold :
    (∀ (ds : List Dec) (d : Dec) (t : JSVal),
      DecorateConstructor (ds ++ [d]) t =
        (let decorated := d.onCtor t
         if ¬ IsUndefined decorated ∧ ¬ IsNull decorated then
           if ¬ IsConstructor decorated then
             ((.error .typeError : Except JSErr JSVal), [d.id])
           else ((DecorateConstructor ds decorated).1,
             d.id :: (DecorateConstructor ds decorated).2)
         else ((DecorateConstructor ds t).1,
           d.id :: (DecorateConstructor ds t).2))) ∧
    (∀ (ds : List Dec) (t v : JSVal),
      (DecorateConstructor ds t).1 = .ok v →
      (DecorateConstructor ds t).2 = (ds.map Dec.id).reverse) ∧
    (∀ (ds : List Dec) (t : JSVal),
      (∀ d ∈ ds, d.onCtor t = JSVal.undef ∨ d.onCtor t = JSVal.null) →
      DecorateConstructor ds t = (.ok t, (ds.map Dec.id).reverse)) := by
  refine ⟨?_, ?_, ?_⟩
  · intro ds d t
    unfold DecorateConstructor
    rw [List.reverse_append]
    rfl
  · intro ds t v h
    unfold DecorateConstructor at *
    rw [decorateCtorAux_trace ds.reverse t v h, List.map_reverse]
  · intro ds t h
    unfold DecorateConstructor
    rw [decorateCtorAux_nothing ds.reverse t
      (fun d hd => h d (List.mem_reverse.1 hd)), List.map_reverse]

/-- C6 witness: two decorators that return nothing run in reverse id order
and hand back the original constructor. -/
theorem decorateConstructor_reverse_fold_witness :
    (∀ d ∈ [decNothing, decNothing2],
      d.onCtor (JSVal.obj 1 true) = JSVal.undef ∨
        d.onCtor (JSVal.obj 1 true) = JSVal.null) ∧
    DecorateConstructor [decNothing, decNothing2] (JSVal.obj 1 true) =
      (.ok (JSVal.obj 1 true),
        (([decNothing, decNothing2].map Dec.id)).reverse) :=
  ⟨by decide,
    decorateConstructor_reverse_fold.2.2 [decNothing, decNothing2]
      (JSVal.obj 1 true) (by decide)⟩

/-! ## Claim C8: validation precedes dispatch -/

theorem checkAndKey_nonObject (H : HostModel) (t pk : JSVal)
    (h : ¬ IsObject t = true) : checkAndKey H t pk = .error .typeError := by
  unfold checkAndKey
  rw [if_pos h]

/-- C8: every validation of decorate fails with a type error before any
decorator is invoked (empty invocation trace, result independent of the
decorator functions): a non-array decorator list (either variant), a
non-object target or invalid descriptor or failing member-key coercion
(member variant), a non-constructor target (constructor variant); and
every store operation — defineMetadata, deleteMetadata and the six read
wrappers — raises a type error on a non-object target without producing
any result or registry, so no registry access or mutation happens. -/
theorem validation_before_dispatch :
    (∀ (H : HostModel) (ds : DecArg) (t pk att : JSVal),
      ¬ IsArrayArg ds = true →
      decorate H ds t pk att = (.error .typeError, [])) ∧
    (∀ (H : HostModel) (ds : DecArg) (t pk att : JSVal),
      ¬ IsUndefined pk = true → ¬ IsObject t = true →
      decorate H ds t pk att = (.error .typeError, [])) ∧
    (∀ (H : HostModel) (ds : DecArg) (t pk att : JSVal),
      ¬ IsUndefined pk = true →
      (¬ IsObject att = true ∧ ¬ IsUndefined att = true ∧
        ¬ IsNull att = true) →
      decorate H ds t pk att = (.error .typeError, [])) ∧
    (∀ (H : HostModel) (ds : DecArg) (t pk att : JSVal) (e : JSErr),
      ¬ IsUndefined pk = true → IsArrayArg ds = true → IsObject t = true →
      ¬ (¬ IsObject att = true ∧ ¬ IsUndefined att = true ∧
        ¬ IsNull att = true) →
      ToPropertyKey H pk = .error e →
      decorate H ds t pk att = (.error e, [])) ∧
    (∀ (H : HostModel) (ds : DecArg) (t pk att : JSVal),
      IsUndefined pk = true → ¬ IsConstructor t = true →
      decorate H ds t pk att = (.error .typeError, [])) ∧
    (∀ (H : HostModel) (k v t pk : JSVal) (reg : Registry),
      ¬ IsObject t = true →
      defineMetadata H k v t pk reg = .error .typeError) ∧
    (∀ (H : HostModel) (k t pk : JSVal) (reg : Registry),
      ¬ IsObject t = true →
      deleteMetadata H k t pk reg = .error .typeError) ∧
    (∀ (H : HostModel) (fuel : Nat) (k t pk : JSVal) (reg : Registry),
      ¬ IsObject t = true →
      hasMetadata H fuel k t pk reg = .error .typeError) ∧
    (∀ (H : HostModel) (k t pk : JSVal) (reg : Registry),
      ¬ IsObject t = true →
      hasOwnMetadata H k t pk reg = .error .typeError) ∧
    (∀ (H : HostModel) (fuel : Nat) (k t pk : JSVal) (reg : Registry),
      ¬ IsObject t = true →
      getMetadata H fuel k t pk reg = .error .typeError) ∧
    (∀ (H : HostModel) (k t pk : JSVal) (reg : Registry),
      ¬ IsObject t = true →
      getOwnMetadata H k t pk reg = .error .typeError) ∧
    (∀ (H : HostModel) (fuel : Nat) (t pk : JSVal) (reg : Registry),
      ¬ IsObject t = true →
      getMetadataKeys H fuel t pk reg = .error .typeError) ∧
    (∀ (H : HostModel) (t pk : JSVal) (reg : Registry),
      ¬ IsObject t = true →
      getOwnMetadataKeys H t pk reg = .error .typeError) := by
  refine ⟨?_, ?_, ?_, ?_, ?_, ?_, ?_, ?_, ?_, ?_, ?_, ?_, ?_⟩
  · intro H ds t pk att h
    unfold decorate
    by_cases hpk : ¬ IsUndefined pk = true
    · rw [if_pos hpk, if_pos h]
    · rw [if_neg hpk, if_pos h]
  · intro H ds t pk att h1 h2
    unfold decorate
    rw [if_pos h1]
    by_cases ha : ¬ IsArrayArg ds = true
    · rw [if_pos ha]
    · rw [if_neg ha, if_pos h2]
  · intro H ds t pk att h1 h2
    unfold decorate
    rw [if_pos h1]
    by_cases ha : ¬ IsArrayArg ds = true
    · rw [if_pos ha]
    · rw [if_neg ha]
      by_cases ho : ¬ IsObject t = true
      · rw [if_pos ho]
      · rw [if_neg ho, if_pos h2]
  · intro H ds t pk att e h1 harr hobj hatt hpk
    unfold decorate
    rw [if_pos h1, if_neg (by simp [harr]), if_neg (by simp [hobj]),
      if_neg hatt]
    simp [hpk]
  · intro H ds t pk att h1 h2
    unfold decorate
    rw [if_neg (by simp [h1])]
    by_cases ha : ¬ IsArrayArg ds = true
    · rw [if_pos ha]
    · rw [if_neg ha, if_pos h2]
  · intro H k v t pk reg h
    unfold defineMetadata
    rw [if_pos h]
  · intro H k t pk reg h
    unfold deleteMetadata
    rw [if_pos h]
  · intro H fuel k t pk reg h
    unfold hasMetadata
    rw [checkAndKey_nonObject H t pk h]
  · intro H k t pk reg h
    unfold hasOwnMetadata
    rw [checkAndKey_nonObject H t pk h]
  · intro H fuel k t pk reg h
    unfold getMetadata
    rw [checkAndKey_nonObject H t pk h]
  · intro H k t pk reg h
    unfold getOwnMetadata
    rw [checkAndKey_nonObject H t pk h]
  · intro H fuel t pk reg h
    unfold getMetadataKeys
    rw [checkAndKey_nonObject H t pk h]
  · intro H t pk reg h
    unfold getOwnMetadataKeys
    rw [checkAndKey_nonObject H t pk h]

/-- C8 witness: a number is not object-like, so member-variant decoration
of it fails with a type error and an empty invocation trace, and
defineMetadata, deleteMetadata and the read wrappers on it fail before
producing a result or registry. -/
theorem validation_before_dispatch_witness :
    (¬ IsUndefined (JSVal.str "m") = true ∧
      ¬ IsObject (JSVal.num 3) = true) ∧
    decorate hostW (DecArg.array [decNothing]) (JSVal.num 3)
        (JSVal.str "m") JSVal.undef = (.error .typeError, []) ∧
    defineMetadata hostW (JSVal.str "k") (JSVal.num 1) (JSVal.num 3)
        JSVal.undef regW = .error .typeError ∧
    deleteMetadata hostW (JSVal.str "k") (JSVal.num 3) JSVal.undef regW =
      .error .typeError ∧
    hasMetadata hostW 2 (JSVal.str "k") (JSVal.num 3) JSVal.undef regW =
      .error .typeError ∧
    getOwnMetadataKeys hostW (JSVal.num 3) JSVal.undef regW =
      .error .typeError :=
  ⟨⟨by decide, by decide⟩,
    validation_before_dispatch.2.1 hostW (DecArg.array [decNothing])
      (JSVal.num 3) (JSVal.str "m") JSVal.undef (by decide) (by decide),
    validation_before_dispatch.2.2.2.2.2.1 hostW (JSVal.str "k")
      (JSVal.num 1) (JSVal.num 3) JSVal.undef regW (by decide),
    validation_before_dispatch.2.2.2.2.2.2.1 hostW (JSVal.str "k")
      (JSVal.num 3) JSVal.undef regW (by decide),
    validation_before_dispatch.2.2.2.2.2.2.2.1 hostW 2 (JSVal.str "k")
      (JSVal.num 3) JSVal.undef regW (by decide),
    validation_before_dispatch.2.2.2.2.2.2.2.2.2.2.2.2 hostW (JSVal.num 3)
      JSVal.undef regW (by decide)⟩

/-! ## Claim C9: the read path never mutates the registry -/

/-- C9: the six public read operations return the registry unchanged: the
shared resolution helper runs in non-creating mode on the read path, so no
TargetEntry or MetadataMap is ever created by a lookup. -/
theorem reads_preserve_registry :
    (∀ (H : HostModel) (fuel : Nat) (k t pk : JSVal) (reg : Registry) r reg',
      hasMetadata H fuel k t pk reg = .ok (r, reg') → reg' = reg) ∧
    (∀ (H : HostModel) (k t pk : JSVal) (reg : Registry) r reg',
      hasOwnMetadata H k t pk reg = .ok (r, reg') → reg' = reg) ∧
    (∀ (H : HostModel) (fuel : Nat) (k t pk : JSVal) (reg : Registry) r reg',
      getMetadata H fuel k t pk reg = .ok (r, reg') → reg' = reg) ∧
    (∀ (H : HostModel) (k t pk : JSVal) (reg : Registry) r reg',
      getOwnMetadata H k t pk reg = .ok (r, reg') → reg' = reg) ∧
    (∀ (H : HostModel) (fuel : Nat) (t pk : JSVal) (reg : Registry) r reg',
      getMetadataKeys H fuel t pk reg = .ok (r, reg') → reg' = reg) ∧
    (∀ (H : HostModel) (t pk : JSVal) (reg : Registry) r reg',
      getOwnMetadataKeys H t pk reg = .ok (r, reg') → reg' = reg) := by
  refine ⟨?_, ?_, ?_, ?_, ?_, ?_⟩
  · intro H fuel k t pk reg r reg' h
    unfold hasMetadata at h
    cases hch : checkAndKey H t pk with
    | error e => rw [hch] at h; exact absurd h (by simp)
    | ok pk' =>
      rw [hch] at h
      simp only [Except.ok.injEq] at h
      have h2 := congrArg Prod.snd h
      rw [hasMeta_snd] at h2
      exact h2.symm
  · intro H k t pk reg r reg' h
    unfold hasOwnMetadata at h
    cases hch : checkAndKey H t pk with
    | error e => rw [hch] at h; exact absurd h (by simp)
    | ok pk' =>
      rw [hch] at h
      simp only [Except.ok.injEq] at h
      have h2 := congrArg Prod.snd h
      rw [hasOwn_snd] at h2
      exact h2.symm
  · intro H fuel k t pk reg r reg' h
    unfold getMetadata at h
    cases hch : checkAndKey H t pk with
    | error e => rw [hch] at h; exact absurd h (by simp)
    | ok pk' =>
      rw [hch] at h
      simp only [Except.ok.injEq] at h
      have h2 := congrArg Prod.snd h
      rw [getMeta_snd] at h2
      exact h2.symm
  · intro H k t pk reg r reg' h
    unfold getOwnMetadata at h
    cases hch : checkAndKey H t pk with
    | error e => rw [hch] at h; exact absurd h (by simp)
    | ok pk' =>
      rw [hch] at h
      simp only [Except.ok.injEq] at h
      have h2 := congrArg Prod.snd h
      rw [getOwn_snd] at h2
      exact h2.symm
  · intro H fuel t pk reg r reg' h
    unfold getMetadataKeys at h
    cases hch : checkAndKey H t pk with
    | error e => rw [hch] at h; exact absurd h (by simp)
    | ok pk' =>
      rw [hch] at h
      simp only [Except.ok.injEq] at h
      have h2 := congrArg Prod.snd h
      rw [metaKeys_snd] at h2
      exact h2.symm
  · intro H t pk reg r reg' h
    unfold getOwnMetadataKeys at h
    cases hch : checkAndKey H t pk with
    | error e => rw [hch] at h; exact absurd h (by simp)
    | ok pk' =>
      rw [hch] at h
      simp only [Except.ok.injEq] at h
      have h2 := congrArg Prod.snd h
      rw [ownKeys_snd] at h2
      exact h2.symm

/-- C9 witness: a concrete chain-walking read returns the registry it was
given. -/
theorem reads_preserve_registry_witness :
    hasMetadata hostW 2 (JSVal.str "Z") (JSVal.obj 2 false) JSVal.undef
        regW = .ok (some true, regW) ∧
    regW = regW :=
  ⟨by rfl,
    reads_preserve_registry.1 hostW 2 (JSVal.str "Z") (JSVal.obj 2 false)
      JSVal.undef regW (some true) regW (by rfl)⟩

/-! ## Claim C3: inherited key union -/

/-- C3: for a target with a non-null resolved parent, a completed
OrdinaryMetadataKeys walk yields exactly the own keys (in their own order)
followed by the parent's keys not already seen (in their own relative
order) — i.e. the first-occurrence-wins union of own and inherited keys. -/
theorem keys_union_parent (H : HostModel) (fuel : Nat) (O P : JSVal)
    (reg : Registry) (ks pk : List JSVal) (hWF : WFRegistry reg)
    (hpar : ¬ OrdinaryGetPrototypeOf H O = JSVal.null)
    (hks : (OrdinaryMetadataKeys H (fuel + 1) O P reg).1 = some ks)
    (hpk : (OrdinaryMetadataKeys H fuel (OrdinaryGetPrototypeOf H O) P
      reg).1 = some pk) :
    ks = (OrdinaryOwnMetadataKeys O P reg).1 ++
      pk.filter (fun x =>
        !decide (x ∈ (OrdinaryOwnMetadataKeys O P reg).1)) := by
  rw [metaKeys_succ, if_neg hpar, hpk] at hks
  have hownnd := ownKeys_nodup O P reg hWF
  have hpknd := metaKeys_nodup H P reg hWF fuel _ pk hpk
  have hks' : (if pk.length ≤ 0 then
        some (OrdinaryOwnMetadataKeys O P reg).1
      else if (OrdinaryOwnMetadataKeys O P reg).1.length ≤ 0 then some pk
      else some (addUniqueAll
        (addUniqueAll ([], []) (OrdinaryOwnMetadataKeys O P reg).1)
        pk).2) = some ks := hks
  by_cases h₁ : pk.length ≤ 0
  · rw [if_pos h₁] at hks'
    cases hks'
    have : pk = [] := List.eq_nil_of_length_eq_zero (Nat.le_zero.1 h₁)
    simp [this]
  · rw [if_neg h₁] at hks'
    by_cases h₂ : (OrdinaryOwnMetadataKeys O P reg).1.length ≤ 0
    · rw [if_pos h₂] at hks'
      cases hks'
      have hown : (OrdinaryOwnMetadataKeys O P reg).1 = [] :=
        List.eq_nil_of_length_eq_zero (Nat.le_zero.1 h₂)
      rw [hown]
      rw [List.filter_eq_self.2 (fun x _ => by simp)]
      simp
    · rw [if_neg h₂] at hks'
      cases hks'
      rw [addUniqueAll_snd pk _ hpknd]
      have h1snd :
          (addUniqueAll (([], []) : List JSVal × List JSVal)
            (OrdinaryOwnMetadataKeys O P reg).1).2 =
          (OrdinaryOwnMetadataKeys O P reg).1 := by
        rw [addUniqueAll_snd _ _ hownnd]
        rw [List.filter_eq_self.2 (fun x _ => by simp)]
        simp
      rw [h1snd]
      have hfc : pk.filter (fun x =>
            !decide (x ∈ (addUniqueAll (([], []) : List JSVal × List JSVal)
              (OrdinaryOwnMetadataKeys O P reg).1).1)) =
          pk.filter (fun x =>
            !decide (x ∈ (OrdinaryOwnMetadataKeys O P reg).1)) := by
        apply List.filter_congr
        intro x _
        have hmem := addUniqueAll_fst_mem
          (OrdinaryOwnMetadataKeys O P reg).1
          (([], []) : List JSVal × List JSVal) x
        simp only [List.not_mem_nil, false_or] at hmem
        simp [hmem]
      rw [hfc]

/-- C3 witness: the spec example — own key set [X, Y], parent key set
[Y, Z] — yields exactly [X, Y, Z]. -/
theorem keys_union_parent_witness :
    (WFRegistry regW ∧
      ¬ OrdinaryGetPrototypeOf hostW (JSVal.obj 2 false) = JSVal.null ∧
      (OrdinaryMetadataKeys hostW 2 (JSVal.obj 2 false) JSVal.undef
        regW).1 = some [JSVal.str "X", JSVal.str "Y", JSVal.str "Z"] ∧
      (OrdinaryMetadataKeys hostW 1
        (OrdinaryGetPrototypeOf hostW (JSVal.obj 2 false)) JSVal.undef
        regW).1 = some [JSVal.str "Y", JSVal.str "Z"]) ∧
    [JSVal.str "X", JSVal.str "Y", JSVal.str "Z"] =
      (OrdinaryOwnMetadataKeys (JSVal.obj 2 false) JSVal.undef regW).1 ++
        ([JSVal.str "Y", JSVal.str "Z"]).filter (fun x =>
          !decide (x ∈ (OrdinaryOwnMetadataKeys (JSVal.obj 2 false)
            JSVal.undef regW).1)) :=
  ⟨⟨by decide, by decide, by rfl, by rfl⟩,
    keys_union_parent hostW 1 (JSVal.obj 2 false) JSVal.undef regW
      [JSVal.str "X", JSVal.str "Y", JSVal.str "Z"]
      [JSVal.str "Y", JSVal.str "Z"] (by decide) (by decide) (by rfl)
      (by rfl)⟩

/-! ## Claim C5: deletion, own level only, with pruning -/

theorem topk_id (H : HostModel) (P : JSVal) (h : IsPropertyKey P = true) :
    ToPropertyKey H P = .ok P := by
  cases P with
  | str s => rfl
  | sym n => rfl
  | undef => simp [IsPropertyKey, TypeOf] at h
  | null => simp [IsPropertyKey, TypeOf] at h
  | bool b => simp [IsPropertyKey, TypeOf] at h
  | num n => simp [IsPropertyKey, TypeOf] at h
  | obj i c => simp [IsPropertyKey, TypeOf] at h

theorem ownMap_some (reg : Registry) (O P : JSVal) (mm : MetadataMap)
    (hm : ownMap reg O P = some mm) :
    ∃ tm, mlookup reg O = some tm ∧ mlookup tm P = some mm := by
  unfold ownMap at hm
  cases h₁ : mlookup reg O with
  | none =>
    simp only [h₁] at hm
    exact absurd hm (by simp)
  | some tm =>
    simp only [h₁] at hm
    exact ⟨tm, rfl, hm⟩

theorem ownMap_setMM_self (reg : Registry) (O P : JSVal)
    (mm' : MetadataMap) :
    ownMap (setMetadataMap reg O P mm') O P = some mm' := by
  unfold setMetadataMap ownMap
  rw [mlookup_mset_self]
  simp only [mlookup_mset_self]

theorem ownMap_setMM_other (reg : Registry) (O P : JSVal)
    (mm' : MetadataMap) (O' P' : JSVal) (h : ¬ (O' = O ∧ P' = P)) :
    ownMap (setMetadataMap reg O P mm') O' P' = ownMap reg O' P' := by
  unfold setMetadataMap ownMap
  by_cases hO : O' = O
  · subst hO
    have hP : P' ≠ P := fun hp => h ⟨rfl, hp⟩
    rw [mlookup_mset_self]
    simp only [mlookup_mset_ne _ _ _ _ hP]
    cases hm : mlookup reg O' with
    | none => simp [mlookup]
    | some tm => simp
  · rw [mlookup_mset_ne _ _ _ _ hO]

theorem noEmpty_mset (reg : Registry) (O : JSVal) (tm' : TargetMetadata)
    (hNE : NoEmptyContainers reg) (htm : tm' ≠ [])
    (hq : ∀ q ∈ tm', q.2 ≠ []) : NoEmptyContainers (mset reg O tm') := by
  intro p hp
  rcases mem_mset reg O tm' p hp with h | h
  · exact hNE p h
  · subst h
    exact ⟨htm, hq⟩

theorem noEmpty_mdelete (reg : Registry) (O : JSVal)
    (hNE : NoEmptyContainers reg) : NoEmptyContainers (mdelete reg O) :=
  fun p hp => hNE p (mem_mdelete reg O p hp)

theorem deleteCore_eq (k O P : JSVal) (reg : Registry) :
    deleteMetadataCore k O P reg =
      (match ownMap reg O P with
       | none => (false, reg)
       | some mm =>
         if ¬ mcontains mm k = true then (false, reg)
         else if (mdelete mm k).length > 0 then
           (true, setMetadataMap reg O P (mdelete mm k))
         else
           match mlookup reg O with
           | none => (false, reg)
           | some tm =>
             if (mdelete tm P).length > 0 then
               (true, mset reg O (mdelete tm P))
             else (true, mdelete reg O)) := by
  unfold deleteMetadataCore
  rw [getOrCreate_false]

/-- C5: deleteMetadata (on an object target with a normalized member key)
returns true exactly when the key was present at the own level; it deletes
at the own level only — own metadata for other keys, and the own maps of
every other (target, member) pair, are untouched, so nothing is ever
deleted across the parent chain — afterwards the key is gone from the own
level, the own key list has lost exactly that key, and pruning keeps the
registry free of empty MetadataMap and TargetEntry containers. -/
theorem deleteMetadata_own_only (H : HostModel) (k O P : JSVal)
    (reg : Registry) (hWF : WFRegistry reg) (hNE : NoEmptyContainers reg)
    (hObj : IsObject O = true)
    (hP : P = JSVal.undef ∨ IsPropertyKey P = true) :
    ∃ reg',
      deleteMetadata H k O P reg =
        .ok ((OrdinaryHasOwnMetadata k O P reg).1, reg') ∧
      (OrdinaryHasOwnMetadata k O P reg').1 = false ∧
      (∀ k', k' ≠ k →
        (OrdinaryGetOwnMetadata k' O P reg').1 =
          (OrdinaryGetOwnMetadata k' O P reg).1) ∧
      (∀ O' P', ¬ (O' = O ∧ P' = P) →
        ownMap reg' O' P' = ownMap reg O' P') ∧
      NoEmptyContainers reg' ∧
      (OrdinaryOwnMetadataKeys O P reg').1 =
        ((OrdinaryOwnMetadataKeys O P reg).1).filter
          (fun x => !decide (x = k)) := by
  have hnorm : (if ¬ IsUndefined P = true then ToPropertyKey H P
      else Except.ok P) = (Except.ok P : Except JSErr JSVal) := by
    rcases hP with hP | hP
    · rw [if_neg (by simp [hP, IsUndefined])]
    · have hPu : ¬ IsUndefined P = true := by
        cases P <;> simp_all [IsPropertyKey, TypeOf, IsUndefined]
      rw [if_pos hPu]
      exact topk_id H P hP
  have hwrap : deleteMetadata H k O P reg =
      .ok (deleteMetadataCore k O P reg) := by
    unfold deleteMetadata
    rw [if_neg (by simp [hObj]), hnorm]
  cases hm : ownMap reg O P with
  | none =>
    have hho : (OrdinaryHasOwnMetadata k O P reg).1 = false := by
      rw [hasOwn_fst]
      simp [hm]
    refine ⟨reg, ?_, ?_, fun k' _ => rfl, fun O' P' _ => rfl, hNE, ?_⟩
    · rw [hwrap, deleteCore_eq, hm, hho]
    · exact hho
    · rw [ownKeys_fst]
      simp [hm]
  | some mm =>
    obtain ⟨tm, h₁, h₂⟩ := ownMap_some reg O P mm hm
    have tmmem := mlookup_mem reg O tm h₁
    have mmmem := mlookup_mem tm P mm h₂
    have regnd : (reg.map Prod.fst).Nodup := hWF.1
    have tmnd : (tm.map Prod.fst).Nodup := (hWF.2 (O, tm) tmmem).1
    have mmnd : (mm.map Prod.fst).Nodup :=
      (hWF.2 (O, tm) tmmem).2 (P, mm) mmmem
    by_cases hc : mcontains mm k = true
    · have hho : (OrdinaryHasOwnMetadata k O P reg).1 = true := by
        rw [hasOwn_fst]
        simp only [hm]
        exact hc
      by_cases hlen : (mdelete mm k).length > 0
      · -- the shrunk map is non-empty: write it back, no pruning
        refine ⟨setMetadataMap reg O P (mdelete mm k), ?_, ?_, ?_, ?_, ?_, ?_⟩
        · rw [hwrap, deleteCore_eq, hm, hho]
          show Except.ok
              (if ¬ mcontains mm k = true then _ else _ : Bool × Registry) =
            _
          rw [if_neg (by simp [hc])]
          show Except.ok
              (if (mdelete mm k).length > 0 then _ else _ :
                Bool × Registry) = _
          rw [if_pos hlen]
        · rw [hasOwn_fst]
          simp only [ownMap_setMM_self]
          simp [mcontains, mlookup_mdelete_self mm k mmnd]
        · intro k' hk'
          rw [getOwn_fst, getOwn_fst]
          simp only [ownMap_setMM_self, hm]
          rw [mlookup_mdelete_ne mm k k' hk']
        · exact fun O' P' h => ownMap_setMM_other reg O P (mdelete mm k)
            O' P' h
        · have hsetMM : setMetadataMap reg O P (mdelete mm k) =
              mset reg O (mset tm P (mdelete mm k)) := by
            unfold setMetadataMap
            rw [h₁]
            rfl
          rw [hsetMM]
          apply noEmpty_mset reg O _ hNE (mset_ne_nil _ _ _)
          intro q hq
          rcases mem_mset tm P (mdelete mm k) q hq with h | h
          · exact ((hNE (O, tm) tmmem).2 q h)
          · subst h
            exact List.length_pos.1 hlen
        · rw [ownKeys_fst, ownKeys_fst]
          simp only [ownMap_setMM_self, hm]
          exact map_fst_mdelete mm k mmnd
      · -- the map became empty: prune it, and possibly the target entry
        have hmmnil : mdelete mm k = [] :=
          List.eq_nil_of_length_eq_zero (Nat.eq_zero_of_not_pos hlen)
        have hv : ∃ v, mm = [(k, v)] := by
          rcases mdelete_eq_nil mm k hmmnil with hmmE | hv
          · rw [hmmE] at hc
            simp [mcontains, mlookup] at hc
          · exact hv
        obtain ⟨v, hv⟩ := hv
        by_cases htlen : (mdelete tm P).length > 0
        · -- prune only the MetadataMap
          have hom' : ownMap (mset reg O (mdelete tm P)) O P = none := by
            unfold ownMap
            rw [mlookup_mset_self]
            show mlookup (mdelete tm P) P = none
            exact mlookup_mdelete_self tm P tmnd
          refine ⟨mset reg O (mdelete tm P), ?_, ?_, ?_, ?_, ?_, ?_⟩
          · rw [hwrap, deleteCore_eq, hm, hho]
            show Except.ok
                (if ¬ mcontains mm k = true then _ else _ :
                  Bool × Registry) = _
            rw [if_neg (by simp [hc])]
            show Except.ok
                (if (mdelete mm k).length > 0 then _ else _ :
                  Bool × Registry) = _
            rw [if_neg hlen, h₁]
            show Except.ok
                (if (mdelete tm P).length > 0 then _ else _ :
                  Bool × Registry) = _
            rw [if_pos htlen]
          · rw [hasOwn_fst]
            simp [hom']
          · intro k' hk'
            rw [getOwn_fst, getOwn_fst]
            simp only [hom', hm, hv]
            simp [mlookup, Ne.symm hk']
          · intro O' P' h
            by_cases hO' : O' = O
            · have hP' : P' ≠ P := fun hp => h ⟨hO', hp⟩
              rw [hO']
              unfold ownMap
              rw [mlookup_mset_self, h₁]
              show mlookup (mdelete tm P) P' = mlookup tm P'
              exact mlookup_mdelete_ne tm P P' hP'
            · unfold ownMap
              rw [mlookup_mset_ne _ _ _ _ hO']
          · exact noEmpty_mset reg O (mdelete tm P) hNE
              (List.length_pos.1 htlen)
              (fun q hq => (hNE (O, tm) tmmem).2 q (mem_mdelete tm P q hq))
          · rw [ownKeys_fst, ownKeys_fst]
            simp only [hom', hm, hv]
            simp
        · -- prune the MetadataMap and the now-empty TargetEntry
          have htm_nil : mdelete tm P = [] :=
            List.eq_nil_of_length_eq_zero (Nat.eq_zero_of_not_pos htlen)
          have htv : tm = [(P, mm)] := by
            rcases mdelete_eq_nil tm P htm_nil with htmE | ⟨mmv, htv⟩
            · rw [htmE] at h₂
              simp [mlookup] at h₂
            · rw [htv] at h₂
              simp [mlookup] at h₂
              rw [htv, h₂]
          have hom' : ownMap (mdelete reg O) O P = none := by
            unfold ownMap
            rw [mlookup_mdelete_self reg O regnd]
          refine ⟨mdelete reg O, ?_, ?_, ?_, ?_, ?_, ?_⟩
          · rw [hwrap, deleteCore_eq, hm, hho]
            show Except.ok
                (if ¬ mcontains mm k = true then _ else _ :
                  Bool × Registry) = _
            rw [if_neg (by simp [hc])]
            show Except.ok
                (if (mdelete mm k).length > 0 then _ else _ :
                  Bool × Registry) = _
            rw [if_neg hlen, h₁]
            show Except.ok
                (if (mdelete tm P).length > 0 then _ else _ :
                  Bool × Registry) = _
            rw [if_neg htlen]
          · rw [hasOwn_fst]
            simp [hom']
          · intro k' hk'
            rw [getOwn_fst, getOwn_fst]
            simp only [hom', hm, hv]
            simp [mlookup, Ne.symm hk']
          · intro O' P' h
            by_cases hO' : O' = O
            · have hP' : P' ≠ P := fun hp => h ⟨hO', hp⟩
              rw [hO']
              unfold ownMap
              rw [mlookup_mdelete_self reg O regnd, h₁]
              show (none : Option MetadataMap) = mlookup tm P'
              rw [htv]
              simp [mlookup, Ne.symm hP']
            · unfold ownMap
              rw [mlookup_mdelete_ne reg O O' hO']
          · exact noEmpty_mdelete reg O hNE
          · rw [ownKeys_fst, ownKeys_fst]
            simp only [hom', hm, hv]
            simp
    · -- the key was not present: no deletion, registry unchanged
      simp only [Bool.not_eq_true] at hc
      have hho : (OrdinaryHasOwnMetadata k O P reg).1 = false := by
        rw [hasOwn_fst]
        simp only [hm]
        exact hc
      refine ⟨reg, ?_, hho, fun k' _ => rfl, fun O' P' _ => rfl, hNE, ?_⟩
      · rw [hwrap, deleteCore_eq, hm, hho]
        show Except.ok
            (if ¬ mcontains mm k = true then _ else _ : Bool × Registry) = _
        rw [if_pos (by simp [hc])]
      · rw [ownKeys_fst]
        simp only [hm]
        rw [List.filter_eq_self.2 (fun x hx => by
          simp only [Bool.not_eq_true', decide_eq_false_iff_not]
          intro hxk
          exact absurd ((mcontains_iff mm k).2 (hxk ▸ hx)) (by simp [hc]))]

/-- C5 witness: deleting the only key of a singleton (target, member) map
returns true, prunes the containers entirely and leaves an empty own key
list. -/
theorem deleteMetadata_own_only_witness :
    (WFRegistry [(JSVal.obj 3 false,
        [(JSVal.undef, [(JSVal.str "only", JSVal.num 1)])])] ∧
      NoEmptyContainers [(JSVal.obj 3 false,
        [(JSVal.undef, [(JSVal.str "only", JSVal.num 1)])])] ∧
      IsObject (JSVal.obj 3 false) = true ∧
      (JSVal.undef = JSVal.undef ∨ IsPropertyKey JSVal.undef = true)) ∧
    (∃ reg',
      deleteMetadata hostW (JSVal.str "only") (JSVal.obj 3 false)
          JSVal.undef [(JSVal.obj 3 false,
            [(JSVal.undef, [(JSVal.str "only", JSVal.num 1)])])] =
        .ok ((OrdinaryHasOwnMetadata (JSVal.str "only") (JSVal.obj 3 false)
          JSVal.undef [(JSVal.obj 3 false,
            [(JSVal.undef, [(JSVal.str "only", JSVal.num 1)])])]).1,
          reg') ∧
      (OrdinaryHasOwnMetadata (JSVal.str "only") (JSVal.obj 3 false)
        JSVal.undef reg').1 = false ∧
      (∀ k', k' ≠ JSVal.str "only" →
        (OrdinaryGetOwnMetadata k' (JSVal.obj 3 false) JSVal.undef
          reg').1 =
        (OrdinaryGetOwnMetadata k' (JSVal.obj 3 false) JSVal.undef
          [(JSVal.obj 3 false,
            [(JSVal.undef, [(JSVal.str "only", JSVal.num 1)])])]).1) ∧
      (∀ O' P', ¬ (O' = JSVal.obj 3 false ∧ P' = JSVal.undef) →
        ownMap reg' O' P' = ownMap [(JSVal.obj 3 false,
          [(JSVal.undef, [(JSVal.str "only", JSVal.num 1)])])] O' P') ∧
      NoEmptyContainers reg' ∧
      (OrdinaryOwnMetadataKeys (JSVal.obj 3 false) JSVal.undef reg').1 =
        ((OrdinaryOwnMetadataKeys (JSVal.obj 3 false) JSVal.undef
          [(JSVal.obj 3 false,
            [(JSVal.undef, [(JSVal.str "only", JSVal.num 1)])])]).1).filter
          (fun x => !decide (x = JSVal.str "only"))) :=
  ⟨⟨by decide, by decide, by decide, Or.inl rfl⟩,
    deleteMetadata_own_only hostW (JSVal.str "only") (JSVal.obj 3 false)
      JSVal.undef [(JSVal.obj 3 false,
        [(JSVal.undef, [(JSVal.str "only", JSVal.num 1)])])]
      (by decide) (by decide) (by decide) (Or.inl rfl)⟩

end Reflect
